import Mathlib

/-!
Verification development for the R-installation discovery and resolution
engine of `src/cpp/desktop/DesktopRVersion.cpp` (Windows desktop build,
without the `CONDA_BUILD` alternate-package-manager profile).

The C++ code is shallowly embedded:

* Qt strings (`QString`) are Lean `String`s; case-insensitive comparison
  (`QString::compare(..., Qt::CaseInsensitive)`) is modelled as the
  lexicographic comparison of the character-wise `Char.toLower` images
  (paths in this subsystem are ASCII drive paths).
* Paths are slash-normalized strings, as produced by `QDir`; the relevant
  `QDir` operations (`dirName`, `cleanPath(filePath(".."))`) are modelled
  on the list of `/`-separated segments.
* The filesystem, the Windows registry, the version-resource API and the
  chooser dialog are external collaborators; they are modelled by an
  explicit environment value `Env` passed to every operation.  Windows
  filesystems are case-insensitive, so all environment lookups are keyed
  by the lower-cased path.
* Machine integers: packed versions are `Nat` below `2^32`; the signed
  32-bit arithmetic of `RVersion::compareTo` is made explicit via `toI32`
  (the value of `static_cast<int>` on a `DWORD`).
-/

/-- Modelled from the spec: the `Architecture` enumeration
`{None, X86, X64, Unknown}` (declared in `DesktopRVersion.hpp`, which is not
among the sources); the numeric values are the C enum values in the spec's
listing order. -/
inductive Architecture where
  | ArchNone
  | ArchX86
  | ArchX64
  | ArchUnknown
deriving DecidableEq, Repr

open Architecture

/-- The C enum value of an `Architecture` tag (used by `compareTo`, which
subtracts architectures as integers). -/
def archRank : Architecture → Int
  | ArchNone => 0
  | ArchX86 => 1
  | ArchX64 => 2
  | ArchUnknown => 3

/-- `ValidateResult` of `RVersion::validate` (values from their uses in
`DesktopRVersion.cpp`). -/
inductive ValidateResult where
  | ValidateSuccess
  | ValidateNotFound
  | ValidateVersionTooOld
deriving DecidableEq, Repr

open ValidateResult

/-- Character-wise lower-casing of a string: the model of Qt's
case-insensitive string handling for the ASCII paths of this subsystem. -/
def lowerStr (s : String) : String :=
  ⟨s.data.map Char.toLower⟩

/-- Three-way lexicographic comparison of character lists by code point. -/
def cmpChars : List Char → List Char → Ordering
  | [], [] => Ordering.eq
  | [], _ :: _ => Ordering.lt
  | _ :: _, [] => Ordering.gt
  | a :: as, b :: bs =>
    if a.toNat < b.toNat then Ordering.lt
    else if b.toNat < a.toNat then Ordering.gt
    else cmpChars as bs

/-- An `Ordering` as the sign of a C-style comparison result. -/
def ordToInt : Ordering → Int
  | Ordering.lt => -1
  | Ordering.eq => 0
  | Ordering.gt => 1

/-- The sign returned by `QString::compare(a, b, Qt::CaseInsensitive)`
(only its sign is ever consumed by the code). -/
def ciCmp (a b : String) : Int :=
  ordToInt (cmpChars (lowerStr a).data (lowerStr b).data)

/-- Split a character list at `/` separators (model of treating a
slash-normalized `QDir` path as its list of segments). -/
def splitSlash : List Char → List (List Char)
  | [] => [[]]
  | c :: rest =>
    match splitSlash rest with
    | [] => [[]]
    | g :: gs => if c = '/' then [] :: g :: gs else (c :: g) :: gs

/-- The `/`-separated segments of a path string. -/
def pathSegs (s : String) : List (List Char) :=
  splitSlash s.data

/-- Join segments back with `/` (inverse of `pathSegs`). -/
def joinSegs : List (List Char) → List Char
  | [] => []
  | [g] => g
  | g :: gs => g ++ '/' :: joinSegs gs

/-- `QDir::dirName()`: the last `/`-separated segment of the path. -/
def dirNameOf (s : String) : String :=
  ⟨(pathSegs s).getLastD []⟩

/-- `QDir::cleanPath(dir.filePath(".."))` for a normalized path: drop the
last segment. -/
def parentPath (s : String) : String :=
  ⟨joinSegs (pathSegs s).dropLast⟩

/-- `QDir::isAbsolute()` on Windows: a drive path (`X:...`) or a UNC path
(`//...`). -/
def isAbsolutePath (s : String) : Bool :=
  match s.data with
  | _ :: ':' :: _ => true
  | '/' :: '/' :: _ => true
  | _ => false

/-- `binDirToHomeDir` (DesktopRVersion.cpp:150): best guess at the home
directory of an R bin directory — the parent of the enclosing `bin`
segment, or empty. -/
def binDirToHomeDir (binDir : String) : String :=
  if binDir = "" then ""
  else if ¬ isAbsolutePath binDir then ""
  else
    -- For R-2.12 and later (bin/i386 and bin/x64)
    let dir := if dirNameOf binDir ≠ "bin" then parentPath binDir else binDir
    -- The parent of the bin dir is the home dir
    if dirNameOf dir = "bin" then parentPath dir else ""

/-- `confirmMinVersion` (DesktopRVersion.cpp:86): `version` is the packed
DWORD (`HIWORD` = file major, `LOWORD` = file minor); `major`/`minor` are
the required `int` values (in the code they default to the
`RSTUDIO_R_*_VERSION_REQUIRED` macros, whose definitions are outside the
given sources, so they stay parameters here). -/
def confirmMinVersion (version : Nat) (major minor : Int) : Bool :=
  let fileMajor : Nat := version / 65536 % 65536
  if (fileMajor : Int) > major then true
  else if (fileMajor : Int) < major then false
  else decide ((version % 65536 : Nat) ≥ minor)

/-! ### The PE header reader (`getArch`, DesktopRVersion.cpp:99)

`getArch` is modelled bit-exactly over the byte content of the file.  The
`std::ifstream` is the pair of a position and a good-flag; `read<T>` on a
failed or exhausted stream leaves the target uninitialized, which is
modelled by an explicit junk value (the theorems quantify over all junk
values, covering every possible uninitialized content). -/

/-- Little-endian value of a byte list (entries taken mod 256). -/
def leVal : List Nat → Nat
  | [] => 0
  | b :: rest => b % 256 + 256 * leVal rest

/-- Little-endian read of `n` bytes of `bytes` at offset `pos`. -/
def leSlice (bytes : List Nat) (pos n : Nat) : Nat :=
  leVal ((bytes.drop pos).take n)

/-- `stream.read` of `n` bytes: on success returns the little-endian value
and advances; on a short read it fails the stream and returns the junk
(uninitialized) value. -/
def peRead (bytes : List Nat) (s : Nat × Bool) (n junk : Nat) : Nat × (Nat × Bool) :=
  if s.2 ∧ s.1 + n ≤ bytes.length then
    (leSlice bytes s.1 n, (s.1 + n, true))
  else
    (junk, (s.1, false))

/-- `stream.seekg(p)`: repositions a good stream, no-op on a failed one. -/
def peSeek (s : Nat × Bool) (p : Nat) : Nat × Bool :=
  if s.2 then (p, true) else s

/-- `getArch` (DesktopRVersion.cpp:99) over the file's bytes.  `ex` is
`QFile::exists`, `openOk` whether the `ifstream` opened; `j1 j2 j3` are the
uninitialized values delivered by failed reads. -/
def getArchFromBytes (ex openOk : Bool) (bytes : List Nat) (j1 j2 j3 : Nat) :
    Architecture :=
  if ¬ ex then ArchNone
  else
    let s1 := peSeek (0, openOk) 0x3C
    let r1 := peRead bytes s1 4 j1
    let headerOffset := r1.1
    let s3 := peSeek r1.2 headerOffset
    let r2 := peRead bytes s3 4 j2
    let header := r2.1
    if header ≠ 0x4550 then ArchNone
    else
      let r3 := peRead bytes r2.2 2 j3
      let arch := r3.1
      if ¬ r3.2.2 then ArchNone
      else if arch = 0x14C then ArchX86        -- IMAGE_FILE_MACHINE_I386
      else if arch = 0x8664 then ArchX64       -- IMAGE_FILE_MACHINE_AMD64
      else ArchUnknown

/-! ### The environment

All external collaborators of the resolution engine, as one explicit value.
Windows filesystems are case-insensitive, so file/directory lookups go
through `lowerStr`. -/

/-- Result of opening a registry key: the key, `ERROR_FILE_NOT_FOUND`, or
any other error (which the code logs). -/
inductive RegResult (α : Type) where
  | ok (v : α)
  | notFound
  | otherErr
deriving DecidableEq, Repr

/-- The two registry scopes probed by the code. -/
inductive RegScope where
  | currentUser   -- HKEY_CURRENT_USER
  | localMachine  -- HKEY_LOCAL_MACHINE
deriving DecidableEq, Repr

/-- Content of the `Software\R-core\R` registry key in one view:
its own `InstallPath` value (`""` when absent) and, per version subkey,
the result of opening it together with its `InstallPath` value. -/
structure RegNode where
  installPath : String
  subkeys : List (RegResult String)
deriving DecidableEq, Repr

/-- Modelled from the spec: the Interactive Fallback Bridge (the external
`ChooseRHome` dialog, whose source is not among the given files): it either
accepts `{selectedPath, auxiliarySetting}` or is abandoned. -/
structure DialogSpec where
  accepted : Bool
  chosenBinDir : String    -- binDir of dialog.version(); "" = system default
  engine : String          -- dialog.renderingEngine()
deriving DecidableEq, Repr

/-- The external world of the resolution engine. -/
structure Env where
  /-- `core::system::getenv` -/
  getenvF : String → String
  /-- file existence, keyed by lower-cased path -/
  fileExistsF : String → Bool
  /-- directory existence, keyed by lower-cased path -/
  dirExistsF : String → Bool
  /-- `QDir::entryList(QDir::Dirs | QDir::NoDotAndDotDot)`, keyed by lower-cased path -/
  subdirsF : String → List String
  /-- version resource (`dwFileVersionMS`) of an existing file, keyed by lower-cased path -/
  verOf : String → Nat
  /-- PE machine architecture of an existing file, keyed by lower-cased path -/
  archOf : String → Architecture
  /-- opening `Software\R-core\R` in a scope under a WOW64 view -/
  regKey : RegScope → Architecture → RegResult RegNode
  /-- `RSTUDIO_R_MAJOR_VERSION_REQUIRED` (macro value not in the sources) -/
  minMajor : Int
  /-- `RSTUDIO_R_MINOR_VERSION_REQUIRED + RSTUDIO_R_PATCH_VERSION_REQUIRED` -/
  minMinor : Int
  /-- the chooser dialog's behaviour -/
  dialog : DialogSpec

/-- `QFile::exists` through the case-insensitive filesystem. -/
def Env.fileExists (env : Env) (p : String) : Bool :=
  env.fileExistsF (lowerStr p)

/-- Directory existence through the case-insensitive filesystem. -/
def Env.dirExists (env : Env) (p : String) : Bool :=
  env.dirExistsF (lowerStr p)

/-- `getVersion` (DesktopRVersion.cpp:51): the packed `dwFileVersionMS` of
the file's version resource, `0` for a missing/unreadable file. -/
def Env.getVersion (env : Env) (p : String) : Nat :=
  if env.fileExists p then env.verOf (lowerStr p) % 4294967296 else 0

/-- `getArch` at the resolution level: `ArchNone` for a missing file, else
the architecture parsed from the binary (the byte-exact parse is
`getArchFromBytes`). -/
def Env.getArch (env : Env) (p : String) : Architecture :=
  if env.fileExists p then env.archOf (lowerStr p) else ArchNone

/-! ### The installation record -/

/-- `RVersion` (fields per the constructor at DesktopRVersion.cpp:492). -/
structure RVersion where
  binDir : String
  homeDir : String
  version : Nat
  arch : Architecture
deriving DecidableEq, Repr

/-- The default-constructed `RVersion()` (empty bin dir). -/
def emptyRV : RVersion :=
  { binDir := "", homeDir := "", version := 0, arch := ArchNone }

/-- `RVersion::RVersion(QString binDir)` (DesktopRVersion.cpp:492): derives
the home dir and, for a non-empty bin dir, reads version and architecture
of `binDir/R.dll`. -/
def mkRVersion (env : Env) (binDir : String) : RVersion :=
  { binDir := binDir
    homeDir := binDirToHomeDir binDir
    version := if binDir ≠ "" then env.getVersion (binDir ++ "/R.dll") else 0
    arch := if binDir ≠ "" then env.getArch (binDir ++ "/R.dll") else ArchNone }

/-- `RVersion::isEmpty`. -/
def RVersion.isEmpty (r : RVersion) : Bool :=
  r.binDir = ""

/-- `RVersion::validate` (DesktopRVersion.cpp:540). -/
def validateRV (env : Env) (r : RVersion) : ValidateResult :=
  if r.isEmpty ∨ r.homeDir = "" then ValidateNotFound
  else if ¬ env.fileExists (r.binDir ++ "/R.dll") then ValidateNotFound
  else if ¬ confirmMinVersion r.version env.minMajor env.minMinor then
    ValidateVersionTooOld
  else ValidateSuccess

/-- `RVersion::isValid`. -/
def rvIsValid (env : Env) (r : RVersion) : Bool :=
  validateRV env r = ValidateSuccess

/-- The value of `static_cast<int>` on a 32-bit unsigned value (two's
complement reinterpretation). -/
def toI32 (v : Nat) : Int :=
  if v < 2147483648 then (v : Int) else (v : Int) - 4294967296

/-- `RVersion::compareTo` (DesktopRVersion.cpp:565).  The version key is
`-(static_cast<int>(version()) - static_cast<int>(other.version()))`;
the subtraction is modelled as exact integer subtraction of the two's
complement values (overflow of the C++ `int` subtraction is undefined
behaviour and unreachable for real version numbers). -/
def compareTo (a b : RVersion) : Int :=
  -- First order by version, descending
  let c1 := -(toI32 a.version - toI32 b.version)
  if c1 ≠ 0 then c1
  else
    -- Then by homedir
    let c2 := ciCmp a.homeDir b.homeDir
    if c2 ≠ 0 then c2
    else
      -- Then put 64-bit first
      let c3 := -(archRank a.arch - archRank b.arch)
      if c3 ≠ 0 then c3
      else
        -- Then order by bindir
        ciCmp a.binDir b.binDir

/-- `RVersion::operator<`. -/
def rvLt (a b : RVersion) : Bool :=
  compareTo a b < 0

/-- `RVersion::operator==` (DesktopRVersion.cpp:597): case-insensitive
equality of the bin dirs only. -/
def rvEq (a b : RVersion) : Bool :=
  ciCmp a.binDir b.binDir = 0

/-! ### Candidate enumerators -/

/-- `versionsFromRHome` (DesktopRVersion.cpp:135): probe `bin` and
`bin/x64` under an R home directory for `R.dll` (`QDir::cd` requires the
directory to exist). -/
def versionsFromRHome (env : Env) (rHome : String) : List RVersion :=
  (["bin", "bin/x64"].filterMap fun d =>
    let p := rHome ++ "/" ++ d
    if env.dirExists p ∧ env.fileExists (p ++ "/R.dll") then
      some (mkRVersion env p)
    else
      none)

/-- `detectVersionsInDir` (DesktopRVersion.cpp:170): the known-path-seeded
enumerator. -/
def detectVersionsInDir (env : Env) (dir : String) : List RVersion :=
  if env.fileExists (dir ++ "/R.dll") then [mkRVersion env dir]
  else
    let d := if dirNameOf dir = "bin" then binDirToHomeDir dir else dir
    versionsFromRHome env d

/-- `enumProgramFiles(QString, ...)` (DesktopRVersion.cpp:185): scan the
`R` child of one program-files directory. -/
def enumProgramFilesDir (env : Env) (progFiles : String) : List RVersion :=
  if isAbsolutePath progFiles ∧ env.dirExists progFiles
      ∧ env.dirExists (progFiles ++ "/R") then
    ((env.subdirsF (lowerStr (progFiles ++ "/R"))).flatMap fun sub =>
      versionsFromRHome env (progFiles ++ "/R/" ++ sub))
  else []

/-- The body of `QStringList::removeDuplicates`: keep each string not seen
before (case-sensitive), in order. -/
def removeDupsFrom (seen : List String) : List String → List String
  | [] => []
  | a :: rest =>
    if a ∈ seen then removeDupsFrom seen rest
    else a :: removeDupsFrom (a :: seen) rest

/-- `QStringList::removeDuplicates`: keep the first occurrence of each
string (case-sensitive). -/
def removeDups (l : List String) : List String :=
  removeDupsFrom [] l

/-- `enumProgramFiles()` (DesktopRVersion.cpp:203): all program-files
directories from the three environment variables, empties dropped,
deduplicated. -/
def enumProgramFiles (env : Env) : List RVersion :=
  let progFiles :=
    removeDups (([env.getenvF "ProgramFiles", env.getenvF "ProgramW6432",
                  env.getenvF "ProgramFiles(x86)"].filter (· ≠ "")))
  progFiles.flatMap (enumProgramFilesDir env)

/-- `enumRegistry(Architecture, HKEY, ...)` (DesktopRVersion.cpp:216):
records found under the `Software\R-core\R` subkeys of one scope/view. -/
def enumRegistry (env : Env) (architecture : Architecture) (scope : RegScope) :
    List RVersion :=
  match architecture with
  | ArchX86 | ArchX64 =>
    match env.regKey scope architecture with
    | RegResult.ok node =>
      (node.subkeys.flatMap fun sk =>
        match sk with
        | RegResult.ok installPath =>
          if installPath ≠ "" then versionsFromRHome env installPath else []
        | _ => [])   -- LOG_ERROR(error); continue;
    | _ => []
  | _ => []

/-- Whether `enumRegistry` logs an error (`LOG_ERROR`): a failed open other
than `ERROR_FILE_NOT_FOUND`, or any failed subkey open. -/
def enumRegistryLogs (env : Env) (architecture : Architecture) (scope : RegScope) :
    Bool :=
  match architecture with
  | ArchX86 | ArchX64 =>
    match env.regKey scope architecture with
    | RegResult.ok node =>
      node.subkeys.any fun sk =>
        match sk with
        | RegResult.ok _ => false
        | _ => true
    | RegResult.notFound => false
    | RegResult.otherErr => true
  | _ => false

/-- `enumRegistry(QList..)` (DesktopRVersion.cpp:263): 64-bit view, current
user then local machine. -/
def enumRegistryAll (env : Env) : List RVersion :=
  enumRegistry env ArchX64 RegScope.currentUser
    ++ enumRegistry env ArchX64 RegScope.localMachine

/-! ### Resolution policy -/

/-- Insertion of one record into a sorted list by `operator<` (the model of
`qSort`: a deterministic, stable comparison sort consistent with
`RVersion::operator<`; `qSort`'s tie order is unspecified). -/
def insertRV (a : RVersion) : List RVersion → List RVersion
  | [] => [a]
  | b :: l => if compareTo a b ≤ 0 then a :: b :: l else b :: insertRV a l

/-- The model of `qSort(versions)`. -/
def sortRV : List RVersion → List RVersion
  | [] => []
  | a :: l => insertRV a (sortRV l)

/-- The tail of the de-duplication loop of `allRVersions`
(DesktopRVersion.cpp:312): `prev` is the element kept last; each element
equal (`operator==`) to it is removed, every other element is kept and
becomes the new `prev`. -/
def dedupFrom (prev : RVersion) : List RVersion → List RVersion
  | [] => []
  | b :: rest =>
    if rvEq b prev then dedupFrom prev rest else b :: dedupFrom b rest

/-- The de-duplication loop of `allRVersions` (DesktopRVersion.cpp:312). -/
def dedupRV : List RVersion → List RVersion
  | [] => []
  | a :: rest => a :: dedupFrom a rest

/-- `allRVersions` (DesktopRVersion.cpp:293): seed ++ `R_HOME` probe ++
registry ++ program files; drop invalid; sort; de-duplicate; drop non-X64
architectures. -/
def allRVersions (env : Env) (versions : List RVersion) : List RVersion :=
  let all := versions
    ++ versionsFromRHome env (env.getenvF "R_HOME")
    ++ enumRegistryAll env
    ++ enumProgramFiles env
  let valid := all.filter (fun v => rvIsValid env v)
  let sorted := dedupRV (sortRV valid)
  sorted.filter (fun v => v.arch = ArchX64)

/-- `detectPreferredFromRegistry` (DesktopRVersion.cpp:329): probe the
`InstallPath` value of `Software\R-core\R` itself in one scope/view and
return the first hit that is valid and of the requested architecture. -/
def detectPreferredFromRegistry (env : Env) (scope : RegScope)
    (architecture : Architecture) : RVersion :=
  match architecture with
  | ArchX86 | ArchX64 =>
    match env.regKey scope architecture with
    | RegResult.ok node =>
      let versions := versionsFromRHome env node.installPath
      ((versions.find? fun v =>
          rvIsValid env v ∧ v.arch = architecture).getD emptyRV)
    | _ => emptyRV
  | _ => emptyRV

/-- `autoDetect(Architecture, bool)` (DesktopRVersion.cpp:373), in the
non-`CONDA_BUILD` profile: registry-preferred (current user, then local
machine) is authoritative; `preferredOnly` stops there; otherwise the
first record of the full sorted list with the requested architecture. -/
def autoDetect (env : Env) (architecture : Architecture) (preferredOnly : Bool) :
    RVersion :=
  let preferred :=
    let p := detectPreferredFromRegistry env RegScope.currentUser architecture
    if ¬ rvIsValid env p then
      detectPreferredFromRegistry env RegScope.localMachine architecture
    else p
  if rvIsValid env preferred then preferred
  else if preferredOnly then emptyRV
  else
    ((allRVersions env []).find? fun v => v.arch = architecture).getD emptyRV

/-- The caller-owned preference store (`desktop::options()`): the persisted
R bin dir and desktop rendering engine. -/
structure Opts where
  rBinDir : String
  engine : String
deriving DecidableEq, Repr

/-- `detectRVersion` (DesktopRVersion.cpp:415).  Returns the resulting
`RVersion` (empty = "no answer"/system default), the updated preference
store, and the number of times the chooser dialog was shown.  The
self-recursion after an accepted choice is fuelled; all theorems show two
units of fuel suffice. -/
def detectRVersion (env : Env) (fuel : Nat) (opts : Opts) (forceUi : Bool) :
    RVersion × Opts × Nat :=
  match fuel with
  | 0 => (emptyRV, opts, 0)
  | fuel' + 1 =>
    -- if currently selected R version is 32-bit, ignore it
    let rCurrentVersion := mkRVersion env opts.rBinDir
    let rVersion :=
      if ¬ rCurrentVersion.isEmpty ∧ rCurrentVersion.arch = ArchX64 then
        rCurrentVersion
      else emptyRV
    if ¬ forceUi ∧ ¬ rVersion.isEmpty ∧ rvIsValid env rVersion then
      -- User manually chose an R version. Use it if it's valid.
      (rVersion, opts, 0)
    else if ¬ forceUi ∧ rVersion.isEmpty
        ∧ rvIsValid env (autoDetect env ArchX64 false) then
      -- User wants us to autodetect (or didn't specify).
      (autoDetect env ArchX64 false, opts, 0)
    else
      -- Now we show the dialog and make the user choose.
      let renderingEngine := opts.engine
      if env.dialog.accepted then
        let chosen := mkRVersion env env.dialog.chosenBinDir
        let opts' := { rBinDir := chosen.binDir, engine := env.dialog.engine }
        if renderingEngine ≠ env.dialog.engine then
          -- Rendering engine changed: request a restart, return "".
          (emptyRV, opts', 1)
        else
          -- Recurse; should never go more than one level deep.
          let r := detectRVersion env fuel' opts' false
          (r.1, r.2.1, r.2.2 + 1)
      else
        -- The user bailed on the dialog.
        (emptyRV, opts, 1)

/-! ### Concrete environments used by witnesses and counterexamples -/

/-- A 70-byte PE image: header offset 64 at 0x3C, `PE\0\0` signature at 64,
machine type `0x8664` (AMD64). -/
def bytesC6 : List Nat :=
  List.replicate 60 0 ++ [64, 0, 0, 0, 80, 69, 0, 0, 0x64, 0x86]

def trivEnv : Env :=
  { getenvF := fun _ => ""
    fileExistsF := fun _ => false
    dirExistsF := fun _ => false
    subdirsF := fun _ => []
    verOf := fun _ => 0
    archOf := fun _ => ArchNone
    regKey := fun _ _ => RegResult.notFound
    minMajor := 2, minMinor := 11
    dialog := ⟨false, "", ""⟩ }

def envC9 : Env :=
  { getenvF := fun _ => ""
    fileExistsF := fun _ => false
    dirExistsF := fun _ => false
    subdirsF := fun _ => []
    verOf := fun _ => 0
    archOf := fun _ => ArchNone
    regKey := fun scope _ =>
      if scope = RegScope.currentUser then RegResult.notFound
      else RegResult.otherErr
    minMajor := 2, minMinor := 11
    dialog := ⟨false, "", ""⟩ }

def envC3 : Env :=
  { getenvF := fun _ => ""
    fileExistsF := fun p => p = "c:/r/bin/r.dll"
    dirExistsF := fun p => p = "c:/r/bin"
    subdirsF := fun _ => []
    verOf := fun _ => 0x40002
    archOf := fun _ => ArchX64
    regKey := fun scope _ =>
      if scope = RegScope.currentUser then RegResult.ok ⟨"C:/R", []⟩
      else RegResult.notFound
    minMajor := 4, minMinor := 1
    dialog := ⟨false, "", ""⟩ }

def envC1a : Env :=
  { getenvF := fun _ => ""
    fileExistsF := fun p => p = "c:/r/bin/r.dll"
    dirExistsF := fun p => p = "c:/r/bin"
    subdirsF := fun _ => []
    verOf := fun _ => 0x40002
    archOf := fun _ => ArchX64
    regKey := fun scope _ =>
      if scope = RegScope.currentUser then RegResult.ok ⟨"C:/R", []⟩
      else RegResult.notFound
    minMajor := 4, minMinor := 1
    dialog := ⟨false, "", ""⟩ }

def envC1b : Env :=
  { getenvF := fun _ => ""
    fileExistsF := fun p => p = "c:/old/bin/r.dll" ∨ p = "c:/r/bin/r.dll"
    dirExistsF := fun p => p = "c:/r/bin"
    subdirsF := fun _ => []
    verOf := fun p => if p = "c:/old/bin/r.dll" then 0x20000 else 0x40002
    archOf := fun _ => ArchX64
    regKey := fun scope _ =>
      if scope = RegScope.currentUser then RegResult.ok ⟨"C:/R", []⟩
      else RegResult.notFound
    minMajor := 4, minMinor := 1
    dialog := ⟨false, "", ""⟩ }

def envC2 : Env :=
  { getenvF := fun _ => ""
    fileExistsF := fun p => p = "c:/r/bin/r.dll"
    dirExistsF := fun p => p = "c:/r/bin"
    subdirsF := fun _ => []
    verOf := fun _ => 0x40002
    archOf := fun _ => ArchX64
    regKey := fun _ _ => RegResult.notFound
    minMajor := 4, minMinor := 1
    dialog := ⟨true, "C:/R/bin", "auto"⟩ }

/-! ### Key tuples for the comparator proofs, and further witness environments -/

def rvKeys (a : RVersion) : Int × List Char × Int × List Char :=
  (toI32 a.version, (lowerStr a.homeDir).data, archRank a.arch,
    (lowerStr a.binDir).data)

def keysCmpI (k l : Int × List Char × Int × List Char) : Int :=
  let c1 := -(k.1 - l.1)
  if c1 ≠ 0 then c1
  else
    let c2 := ordToInt (cmpChars k.2.1 l.2.1)
    if c2 ≠ 0 then c2
    else
      let c3 := -(k.2.2.1 - l.2.2.1)
      if c3 ≠ 0 then c3
      else ordToInt (cmpChars k.2.2.2 l.2.2.2)

def keysLt (k l : Int × List Char × Int × List Char) : Prop :=
  l.1 < k.1
  ∨ (k.1 = l.1 ∧ (cmpChars k.2.1 l.2.1 = Ordering.lt
    ∨ (k.2.1 = l.2.1 ∧ (l.2.2.1 < k.2.2.1
      ∨ (k.2.2.1 = l.2.2.1 ∧ cmpChars k.2.2.2 l.2.2.2 = Ordering.lt)))))

def envC4 : Env :=
  { getenvF := fun _ => ""
    fileExistsF := fun p => p = "c:/big/bin/r.dll" ∨ p = "c:/small/bin/r.dll"
        ∨ p = "c:/x/bin/r.dll" ∨ p = "c:/x/bin/x64/r.dll"
    dirExistsF := fun _ => false
    subdirsF := fun _ => []
    verOf := fun p => if p = "c:/big/bin/r.dll" then 0xFFFFFFFF else 0x40000
    archOf := fun p => if p = "c:/x/bin/r.dll" then ArchUnknown else ArchX64
    regKey := fun _ _ => RegResult.notFound
    minMajor := 2, minMinor := 11
    dialog := ⟨false, "", ""⟩ }

/-! ### Proof-layer definitions for the sort/dedup analysis -/

def eqvB (a b : RVersion) : Bool :=
  compareTo a b = 0

def filterC (k : RVersion) (L : List RVersion) : List RVersion :=
  L.filter (fun x => eqvB x k)

/-- The tail of `dedupERV` below, with `prev` the element kept last. -/

def dedupFromE (prev : RVersion) : List RVersion → List RVersion
  | [] => []
  | b :: rest =>
    if eqvB b prev then dedupFromE prev rest else b :: dedupFromE b rest

/-- `dedupRV` with `operator==` replaced by comparator equality. -/

def dedupERV : List RVersion → List RVersion
  | [] => []
  | a :: rest => a :: dedupFromE a rest

def rvSorted (L : List RVersion) : Prop :=
  L.Pairwise (fun a b => compareTo a b ≤ 0)

def allEnum (env : Env) : List RVersion :=
  versionsFromRHome env (env.getenvF "R_HOME") ++ enumRegistryAll env
    ++ enumProgramFiles env

def allValid (env : Env) (seed : List RVersion) : List RVersion :=
  (seed ++ allEnum env).filter (fun v => rvIsValid env v)

def envC8 : Env :=
  { getenvF := fun _ => ""
    fileExistsF := fun p => p = "c:/x/bin/bin/r.dll" ∨ p = "c:/x/a/bin/r.dll"
    dirExistsF := fun _ => false
    subdirsF := fun _ => []
    verOf := fun _ => 0x40000
    archOf := fun p => if p = "c:/x/a/bin/r.dll" then ArchX86 else ArchX64
    regKey := fun _ _ => RegResult.notFound
    minMajor := 2, minMinor := 11
    dialog := ⟨false, "", ""⟩ }

def seedC8 : List RVersion :=
  [mkRVersion envC8 "C:/x/bin/BIN", mkRVersion envC8 "C:/x/a/bin",
   mkRVersion envC8 "C:/x/bin/bin"]

def envC8w : Env :=
  { getenvF := fun _ => ""
    fileExistsF := fun p => p = "c:/r/bin/r.dll"
    dirExistsF := fun p => p = "c:/r/bin"
    subdirsF := fun _ => []
    verOf := fun _ => 0x40002
    archOf := fun _ => ArchX64
    regKey := fun scope _ =>
      if scope = RegScope.currentUser then RegResult.ok ⟨"C:/R", [RegResult.ok "C:/R"]⟩
      else RegResult.notFound
    minMajor := 4, minMinor := 1
    dialog := ⟨false, "", ""⟩ }

/-! ### Theorems -/

/-- C5: confirmMinVersion returns true iff the high 16 bits of the packed
version strictly exceed the required major, or equal it with the low 16 bits
at least the required combined minor; 0x00040002 vs 4/1 is sufficient, any
major-3 version is insufficient vs major 4, and 0x00050000 vs 4/1 is
sufficient (strictly greater major short-circuits). -/
theorem thm_C5 (version : Nat) (major minor : Int) :
    (confirmMinVersion version major minor = true ↔
      ((version / 65536 % 65536 : Nat) : Int) > major ∨
      (((version / 65536 % 65536 : Nat) : Int) = major
        ∧ ((version % 65536 : Nat) : Int) ≥ minor))
    ∧ confirmMinVersion 0x40002 4 1 = true
    ∧ (version / 65536 % 65536 = 3 → confirmMinVersion version 4 1 = false)
    ∧ confirmMinVersion 0x50000 4 1 = true := by
  refine ⟨?_, by decide, ?_, by decide⟩
  · simp only [confirmMinVersion]
    split_ifs with h1 h2
    · simp only [true_iff]
      omega
    · simp only [Bool.false_eq_true, false_iff]
      omega
    · simp only [decide_eq_true_eq]
      omega
  · intro h3
    simp only [confirmMinVersion, h3]
    norm_num

/-- C6: getArch returns ArchNone for a missing or unopenable file (for every
uninitialized read value); for readable header fields it reads a
little-endian 32-bit offset at 0x3C and a little-endian 32-bit signature at
that offset, returns ArchNone unless the signature is 0x00004550, and maps
the following little-endian 16-bit machine type 0x014C to X86, 0x8664 to
X64, anything else to Unknown. -/
theorem thm_C6 (bytes : List Nat) (j1 j2 j3 : Nat) :
    (∀ openOk, getArchFromBytes false openOk bytes j1 j2 j3 = ArchNone)
    ∧ getArchFromBytes true false bytes j1 j2 j3 = ArchNone
    ∧ (0x40 ≤ bytes.length →
        leSlice bytes 0x3C 4 + 6 ≤ bytes.length →
        getArchFromBytes true true bytes j1 j2 j3 =
          (if leSlice bytes (leSlice bytes 0x3C 4) 4 ≠ 0x4550 then ArchNone
           else if leSlice bytes (leSlice bytes 0x3C 4 + 4) 2 = 0x14C then ArchX86
           else if leSlice bytes (leSlice bytes 0x3C 4 + 4) 2 = 0x8664 then ArchX64
           else ArchUnknown)) := by
  refine ⟨fun openOk => by simp [getArchFromBytes], ?_, ?_⟩
  · by_cases hj : j2 = 0x4550 <;>
      simp [getArchFromBytes, peSeek, peRead, hj]
  · intro h1 h2
    have hr1 : 0x3C + 4 ≤ bytes.length := h1
    have hr2 : leSlice bytes 0x3C 4 + 4 ≤ bytes.length := by omega
    have hr3 : leSlice bytes 0x3C 4 + 4 + 2 ≤ bytes.length := by omega
    simp [getArchFromBytes, peSeek, peRead, hr1, hr2, hr3]

/-- C7: for every file whose byte content is shorter than the PE header
fields the reader needs (shorter than 0x40 bytes, or than headerOffset+6),
getArch returns ArchNone for every possible uninitialized read value -
indistinguishable from a missing file. -/
theorem thm_C7 (bytes : List Nat) (j1 j2 j3 : Nat)
    (h : bytes.length < 0x40 ∨ bytes.length < leSlice bytes 0x3C 4 + 6) :
    getArchFromBytes true true bytes j1 j2 j3 = ArchNone := by
  by_cases hA : 0x3C + 4 ≤ bytes.length
  · have hB : bytes.length < leSlice bytes 0x3C 4 + 6 := by
      rcases h with h | h
      · omega
      · exact h
    by_cases h4 : leSlice bytes 0x3C 4 + 4 ≤ bytes.length
    · by_cases hsig : leSlice bytes (leSlice bytes 0x3C 4) 4 = 0x4550
      · have h6 : ¬ (leSlice bytes 0x3C 4 + 4 + 2 ≤ bytes.length) := by omega
        simp [getArchFromBytes, peSeek, peRead, hA, h4, hsig, h6]
      · simp [getArchFromBytes, peSeek, peRead, hA, h4, hsig]
    · by_cases hj : j2 = 0x4550 <;>
        simp [getArchFromBytes, peSeek, peRead, hA, h4, hj]
  · by_cases hj : j2 = 0x4550 <;>
      simp [getArchFromBytes, peSeek, peRead, hA, hj]

theorem thm_C6_witness :
    (0x40 ≤ bytesC6.length ∧ leSlice bytesC6 0x3C 4 + 6 ≤ bytesC6.length)
    ∧ getArchFromBytes true true bytesC6 0 0 0 = ArchX64 := by
  refine ⟨⟨by decide, by decide⟩, ?_⟩
  have h := (thm_C6 bytesC6 0 0 0).2.2 (by decide) (by decide)
  rw [h]
  decide

theorem thm_C7_witness :
    ([] : List Nat).length < 0x40
    ∧ getArchFromBytes true true [] 7 0x4550 9 = ArchNone :=
  ⟨by decide, thm_C7 [] 7 0x4550 9 (Or.inl (by decide))⟩

theorem thm_C5_witness :
    (0x30007 / 65536 % 65536 = 3 ∧ confirmMinVersion 0x30007 4 1 = false)
    ∧ confirmMinVersion 0x40002 4 1 = true :=
  ⟨⟨by decide, (thm_C5 0x30007 4 1).2.2.1 (by decide)⟩, (thm_C5 0 0 0).2.1⟩

theorem validate_of_homeDir_empty (env : Env) (r : RVersion)
    (h : r.homeDir = "") : validateRV env r = ValidateNotFound := by
  simp [validateRV, h]

/-- C10: a record constructed from a non-empty non-absolute binDir - and
generally whenever neither binDir's last segment nor its parent's last
segment is "bin" - has an empty derived homeDir and validates as NotFound;
and every record with an empty homeDir validates as NotFound, hence is
never valid. -/
theorem thm_C10 (env : Env) (b : String) :
    ((b ≠ "" ∧ isAbsolutePath b = false) →
      (mkRVersion env b).homeDir = ""
      ∧ validateRV env (mkRVersion env b) = ValidateNotFound)
    ∧ ((dirNameOf b ≠ "bin" ∧ dirNameOf (parentPath b) ≠ "bin") →
      (mkRVersion env b).homeDir = ""
      ∧ validateRV env (mkRVersion env b) = ValidateNotFound)
    ∧ (∀ r : RVersion, r.homeDir = "" →
      validateRV env r = ValidateNotFound ∧ rvIsValid env r = false) := by
  have third : ∀ r : RVersion, r.homeDir = "" →
      validateRV env r = ValidateNotFound ∧ rvIsValid env r = false := by
    intro r hr
    refine ⟨validate_of_homeDir_empty env r hr, ?_⟩
    simp [rvIsValid, validate_of_homeDir_empty env r hr]
  refine ⟨?_, ?_, third⟩
  · rintro ⟨hb, habs⟩
    have hhome : (mkRVersion env b).homeDir = "" := by
      simp [mkRVersion, binDirToHomeDir, hb, habs]
    exact ⟨hhome, validate_of_homeDir_empty env _ hhome⟩
  · rintro ⟨h1, h2⟩
    have hhome : (mkRVersion env b).homeDir = "" := by
      simp [mkRVersion, binDirToHomeDir, h1, h2]
    exact ⟨hhome, validate_of_homeDir_empty env _ hhome⟩

theorem thm_C10_witness :
    (("rel/bin" : String) ≠ "" ∧ isAbsolutePath "rel/bin" = false)
    ∧ (mkRVersion trivEnv "rel/bin").homeDir = ""
    ∧ validateRV trivEnv (mkRVersion trivEnv "rel/bin") = ValidateNotFound := by
  refine ⟨⟨by decide, by decide⟩, ?_⟩
  exact (thm_C10 trivEnv "rel/bin").1 ⟨by decide, by decide⟩

/-- C9: every candidate enumerator returns an empty list when its backing
resource (environment variable, registry key, or directory) does not exist
and never fails the caller; a missing registry key is silently treated as
no candidates, while any other registry access failure is logged and still
treated as empty. -/
theorem thm_C9 (env : Env) :
    (∀ rHome, env.dirExists (rHome ++ "/bin") = false →
      env.dirExists (rHome ++ "/bin/x64") = false →
      versionsFromRHome env rHome = [])
    ∧ (∀ arch scope, env.regKey scope arch = RegResult.notFound →
      enumRegistry env arch scope = [] ∧ enumRegistryLogs env arch scope = false)
    ∧ (∀ arch scope, env.regKey scope arch = RegResult.otherErr →
      enumRegistry env arch scope = []
      ∧ ((arch = ArchX86 ∨ arch = ArchX64) → enumRegistryLogs env arch scope = true))
    ∧ (∀ progFiles, env.dirExists progFiles = false →
      enumProgramFilesDir env progFiles = [])
    ∧ ((env.getenvF "ProgramFiles" = "" ∧ env.getenvF "ProgramW6432" = ""
        ∧ env.getenvF "ProgramFiles(x86)" = "") → enumProgramFiles env = [])
    ∧ (∀ dir, env.fileExists (dir ++ "/R.dll") = false →
      (∀ p, env.dirExists p = false) → detectVersionsInDir env dir = []) := by
  have hrhome : ∀ rHome, env.dirExists (rHome ++ "/bin") = false →
      env.dirExists (rHome ++ "/bin/x64") = false →
      versionsFromRHome env rHome = [] := by
    intro rHome h1 h2
    have e1 : rHome ++ "/" ++ "bin" = rHome ++ "/bin" := by
      rw [String.append_assoc]; rfl
    have e2 : rHome ++ "/" ++ "bin/x64" = rHome ++ "/bin/x64" := by
      rw [String.append_assoc]; rfl
    simp [versionsFromRHome, e1, e2, h1, h2]
  refine ⟨hrhome, ?_, ?_, ?_, ?_, ?_⟩
  · intro arch scope h
    cases arch <;> simp [enumRegistry, enumRegistryLogs, h]
  · intro arch scope h
    cases arch <;> simp [enumRegistry, enumRegistryLogs, h]
  · intro progFiles h
    simp [enumProgramFilesDir, h]
  · rintro ⟨h1, h2, h3⟩
    simp [enumProgramFiles, h1, h2, h3, removeDups, removeDupsFrom]
  · intro dir h1 h2
    simp [detectVersionsInDir, h1]
    exact hrhome _ (h2 _) (h2 _)

theorem thm_C9_witness :
    (envC9.regKey RegScope.currentUser ArchX64 = RegResult.notFound
      ∧ enumRegistry envC9 ArchX64 RegScope.currentUser = []
      ∧ enumRegistryLogs envC9 ArchX64 RegScope.currentUser = false)
    ∧ (envC9.regKey RegScope.localMachine ArchX64 = RegResult.otherErr
      ∧ enumRegistry envC9 ArchX64 RegScope.localMachine = []
      ∧ enumRegistryLogs envC9 ArchX64 RegScope.localMachine = true)
    ∧ enumProgramFiles envC9 = []
    ∧ versionsFromRHome envC9 "C:/missing" = [] := by
  have t := thm_C9 envC9
  refine ⟨⟨by decide, ?_⟩, ⟨by decide, ?_⟩, ?_, ?_⟩
  · exact (t.2.1 ArchX64 RegScope.currentUser (by decide))
  · have h := t.2.2.1 ArchX64 RegScope.localMachine (by decide)
    exact ⟨h.1, h.2 (Or.inr rfl)⟩
  · exact t.2.2.2.2.1 ⟨rfl, rfl, rfl⟩
  · exact t.1 "C:/missing" (by decide) (by decide)

/-- C3: in the non-alternate-package-manager build, autoDetect queries the
registry-preferred lookup in current-user scope then machine scope and
returns the first valid hit immediately regardless of any filesystem
content; if preferredOnly holds and there is no registry hit it returns the
empty record without the full scan; otherwise it returns the first record
of the full sorted candidate list whose architecture matches, or the empty
record. -/
theorem thm_C3 (env : Env) (architecture : Architecture) (preferredOnly : Bool) :
    (rvIsValid env (detectPreferredFromRegistry env RegScope.currentUser architecture) = true →
      autoDetect env architecture preferredOnly =
        detectPreferredFromRegistry env RegScope.currentUser architecture)
    ∧ (rvIsValid env (detectPreferredFromRegistry env RegScope.currentUser architecture) = false →
      rvIsValid env (detectPreferredFromRegistry env RegScope.localMachine architecture) = true →
      autoDetect env architecture preferredOnly =
        detectPreferredFromRegistry env RegScope.localMachine architecture)
    ∧ (rvIsValid env (detectPreferredFromRegistry env RegScope.currentUser architecture) = false →
      rvIsValid env (detectPreferredFromRegistry env RegScope.localMachine architecture) = false →
      preferredOnly = true →
      autoDetect env architecture preferredOnly = emptyRV)
    ∧ (rvIsValid env (detectPreferredFromRegistry env RegScope.currentUser architecture) = false →
      rvIsValid env (detectPreferredFromRegistry env RegScope.localMachine architecture) = false →
      preferredOnly = false →
      autoDetect env architecture preferredOnly =
        ((allRVersions env []).find? fun v => v.arch = architecture).getD emptyRV) := by
  refine ⟨?_, ?_, ?_, ?_⟩
  · intro h1
    simp [autoDetect, h1]
  · intro h1 h2
    simp [autoDetect, h1, h2]
  · intro h1 h2 h3
    simp [autoDetect, h1, h2, h3]
  · intro h1 h2 h3
    simp [autoDetect, h1, h2, h3]

theorem thm_C3_witness :
    rvIsValid envC3 (detectPreferredFromRegistry envC3 RegScope.currentUser ArchX64) = true
    ∧ autoDetect envC3 ArchX64 false =
        detectPreferredFromRegistry envC3 RegScope.currentUser ArchX64 :=
  ⟨by decide, (thm_C3 envC3 ArchX64 false).1 (by decide)⟩

theorem mkRVersion_binDir (env : Env) (b : String) :
    (mkRVersion env b).binDir = b := rfl

theorem detect_pass_adopted (env : Env) (opts : Opts) (fuel : Nat)
    (h1 : (mkRVersion env opts.rBinDir).isEmpty = false)
    (h2 : (mkRVersion env opts.rBinDir).arch = ArchX64)
    (h3 : rvIsValid env (mkRVersion env opts.rBinDir) = true) :
    detectRVersion env (fuel + 1) opts false
      = (mkRVersion env opts.rBinDir, opts, 0) := by
  have hyes : ¬ (mkRVersion env opts.rBinDir).isEmpty = true
      ∧ (mkRVersion env opts.rBinDir).arch = ArchX64 := ⟨by simp [h1], h2⟩
  simp only [detectRVersion]
  rw [if_pos hyes]
  simp [h1, h3]

theorem detect_pass_auto (env : Env) (opts : Opts) (fuel : Nat)
    (hno : ¬ ((mkRVersion env opts.rBinDir).isEmpty = false
      ∧ (mkRVersion env opts.rBinDir).arch = ArchX64))
    (hauto : rvIsValid env (autoDetect env ArchX64 false) = true) :
    detectRVersion env (fuel + 1) opts false
      = (autoDetect env ArchX64 false, opts, 0) := by
  have hno' : ¬ (¬ (mkRVersion env opts.rBinDir).isEmpty = true
      ∧ (mkRVersion env opts.rBinDir).arch = ArchX64) := by
    intro h
    exact hno ⟨by simpa using h.1, h.2⟩
  simp only [detectRVersion]
  rw [if_neg hno']
  have he : emptyRV.isEmpty = true := rfl
  simp [he, hauto]

theorem detect_forceUi_accept_changed (env : Env) (opts : Opts) (fuel : Nat)
    (hacc : env.dialog.accepted = true)
    (hne : opts.engine ≠ env.dialog.engine) :
    detectRVersion env (fuel + 1) opts true =
      (emptyRV, ⟨env.dialog.chosenBinDir, env.dialog.engine⟩, 1) := by
  simp only [detectRVersion]
  simp [hacc, hne, mkRVersion_binDir]

theorem detect_forceUi_accept_same (env : Env) (opts : Opts) (fuel : Nat)
    (hacc : env.dialog.accepted = true)
    (heq : opts.engine = env.dialog.engine) :
    detectRVersion env (fuel + 1) opts true =
      ((detectRVersion env fuel ⟨env.dialog.chosenBinDir, env.dialog.engine⟩ false).1,
       (detectRVersion env fuel ⟨env.dialog.chosenBinDir, env.dialog.engine⟩ false).2.1,
       (detectRVersion env fuel ⟨env.dialog.chosenBinDir, env.dialog.engine⟩ false).2.2
         + 1) := by
  simp only [detectRVersion]
  simp [hacc, heq, mkRVersion_binDir]

/-- C1 (amended): with forceInteractive=false, a tentative candidate is
adopted only if non-empty and X64; an adopted valid candidate is returned
immediately with no chooser; if no candidate was adopted, autoDetect (not
preferred-only) is run and its valid result returned with no chooser; in
particular a previous choice whose R.dll no longer exists reads as
architecture None, is silently ignored, and resolution falls through to
autoDetect without invoking the chooser.  (The original claim's "otherwise
autoDetect is run" is refuted by thm_C1_cex: an adopted-but-invalid
candidate goes straight to the chooser.) -/
theorem thm_C1 (env : Env) (opts : Opts) (fuel : Nat) :
    (((mkRVersion env opts.rBinDir).isEmpty = false
        ∧ (mkRVersion env opts.rBinDir).arch = ArchX64) →
      rvIsValid env (mkRVersion env opts.rBinDir) = true →
      detectRVersion env (fuel + 1) opts false = (mkRVersion env opts.rBinDir, opts, 0))
    ∧ (¬ ((mkRVersion env opts.rBinDir).isEmpty = false
        ∧ (mkRVersion env opts.rBinDir).arch = ArchX64) →
      rvIsValid env (autoDetect env ArchX64 false) = true →
      detectRVersion env (fuel + 1) opts false = (autoDetect env ArchX64 false, opts, 0))
    ∧ (opts.rBinDir ≠ "" →
      env.fileExists (opts.rBinDir ++ "/R.dll") = false →
      rvIsValid env (autoDetect env ArchX64 false) = true →
      detectRVersion env (fuel + 1) opts false = (autoDetect env ArchX64 false, opts, 0)) := by
  refine ⟨fun hyes hval => detect_pass_adopted env opts fuel hyes.1 hyes.2 hval,
    fun hno hauto => detect_pass_auto env opts fuel hno hauto,
    fun hne hfile hauto => detect_pass_auto env opts fuel ?_ hauto⟩
  rintro ⟨-, harch⟩
  rw [mkRVersion] at harch
  simp [hne, Env.getArch, hfile] at harch

theorem thm_C1_witness :
    (("C:/old/bin" : String) ≠ ""
      ∧ envC1a.fileExists ("C:/old/bin" ++ "/R.dll") = false
      ∧ rvIsValid envC1a (autoDetect envC1a ArchX64 false) = true)
    ∧ detectRVersion envC1a 1 ⟨"C:/old/bin", "auto"⟩ false
        = (autoDetect envC1a ArchX64 false, ⟨"C:/old/bin", "auto"⟩, 0) := by
  refine ⟨⟨by decide, by decide, by decide⟩, ?_⟩
  exact (thm_C1 envC1a ⟨"C:/old/bin", "auto"⟩ 0).2.2 (by decide) (by decide)
    (by decide)

/-- C1 counterexample: a previous choice that is non-empty, X64, but invalid
(version too old) while autoDetect would succeed: resolve invokes the
chooser (count 1) and returns the empty record, not the autoDetect
result. -/
theorem thm_C1_cex :
    ((mkRVersion envC1b "C:/old/bin").isEmpty = false
      ∧ (mkRVersion envC1b "C:/old/bin").arch = ArchX64)
    ∧ rvIsValid envC1b (mkRVersion envC1b "C:/old/bin") = false
    ∧ rvIsValid envC1b (autoDetect envC1b ArchX64 false) = true
    ∧ detectRVersion envC1b 2 ⟨"C:/old/bin", "auto"⟩ false
        = (emptyRV, ⟨"C:/old/bin", "auto"⟩, 1) :=
  ⟨⟨by decide, by decide⟩, by decide, by decide, by decide⟩

/-- C2: whenever the chooser accepts a selection, resolve persists the
chosen binDir and the rendering engine; if the engine changed it returns
the empty record without recursing (chooser shown once); otherwise it
recurses exactly once and, under the bridge contract that accepted
selections are usable, the second pass returns without showing the chooser
again (total chooser count 1, for any fuel). -/
theorem thm_C2 (env : Env) (opts : Opts) (fuel : Nat)
    (hacc : env.dialog.accepted = true) :
    (opts.engine ≠ env.dialog.engine →
      detectRVersion env (fuel + 1) opts true =
        (emptyRV, ⟨env.dialog.chosenBinDir, env.dialog.engine⟩, 1))
    ∧ (opts.engine = env.dialog.engine →
      ((mkRVersion env env.dialog.chosenBinDir).isEmpty = false →
        rvIsValid env (mkRVersion env env.dialog.chosenBinDir) = true
        ∧ (mkRVersion env env.dialog.chosenBinDir).arch = ArchX64) →
      ((mkRVersion env env.dialog.chosenBinDir).isEmpty = true →
        rvIsValid env (autoDetect env ArchX64 false) = true) →
      detectRVersion env (fuel + 2) opts true =
        ((if (mkRVersion env env.dialog.chosenBinDir).isEmpty then
            autoDetect env ArchX64 false
          else mkRVersion env env.dialog.chosenBinDir),
          ⟨env.dialog.chosenBinDir, env.dialog.engine⟩, 1)) := by
  refine ⟨fun hne => detect_forceUi_accept_changed env opts fuel hacc hne, ?_⟩
  intro heq hb1 hb2
  rw [detect_forceUi_accept_same env opts (fuel + 1) hacc heq]
  by_cases hemp : (mkRVersion env env.dialog.chosenBinDir).isEmpty = true
  · have hauto := hb2 hemp
    have hinner := detect_pass_auto env ⟨env.dialog.chosenBinDir, env.dialog.engine⟩
      fuel (by rintro ⟨hf, -⟩; rw [hemp] at hf; cases hf) hauto
    rw [hinner]
    simp [hemp]
  · have hval := hb1 (by simpa using hemp)
    have hinner := detect_pass_adopted env ⟨env.dialog.chosenBinDir, env.dialog.engine⟩
      fuel (by simpa using hemp) hval.2 hval.1
    rw [hinner]
    simp [hemp]

theorem thm_C2_witness :
    envC2.dialog.accepted = true
    ∧ detectRVersion envC2 2 ⟨"", "auto"⟩ true =
        (mkRVersion envC2 "C:/R/bin", ⟨"C:/R/bin", "auto"⟩, 1) := by
  refine ⟨rfl, ?_⟩
  have h := (thm_C2 envC2 ⟨"", "auto"⟩ 0 rfl).2 rfl
    (fun _ => ⟨by decide, by decide⟩)
    (fun he => absurd he (by decide))
  rw [h]
  decide


theorem cmpChars_eq_iff (x y : List Char) :
    cmpChars x y = Ordering.eq ↔ x = y := by
  induction x generalizing y with
  | nil => cases y <;> simp [cmpChars]
  | cons a as ih =>
    cases y with
    | nil => simp [cmpChars]
    | cons b bs =>
      by_cases h1 : a.toNat < b.toNat
      · have hne : a ≠ b := fun h => by subst h; omega
        simp [cmpChars, h1, hne]
      · by_cases h2 : b.toNat < a.toNat
        · have hne : a ≠ b := fun h => by subst h; omega
          simp [cmpChars, h1, h2, hne]
        · have hval : a.toNat = b.toNat := by omega
          have hab : a = b := Char.ext (UInt32.ext hval)
          simp [cmpChars, h1, h2, hab, ih]

theorem cmpChars_refl (x : List Char) : cmpChars x x = Ordering.eq :=
  (cmpChars_eq_iff x x).mpr rfl

theorem cmpChars_swap (x y : List Char) :
    cmpChars y x = (cmpChars x y).swap := by
  induction x generalizing y with
  | nil => cases y <;> simp [cmpChars, Ordering.swap]
  | cons a as ih =>
    cases y with
    | nil => simp [cmpChars, Ordering.swap]
    | cons b bs =>
      by_cases h1 : a.toNat < b.toNat
      · have h2 : ¬ b.toNat < a.toNat := by omega
        simp [cmpChars, h1, h2, Ordering.swap]
      · by_cases h2 : b.toNat < a.toNat
        · simp [cmpChars, h1, h2, Ordering.swap]
        · simp [cmpChars, h1, h2, ih]

theorem cmpChars_lt_trans {x y z : List Char}
    (h1 : cmpChars x y = Ordering.lt) (h2 : cmpChars y z = Ordering.lt) :
    cmpChars x z = Ordering.lt := by
  induction x generalizing y z with
  | nil =>
    cases y with
    | nil => simp [cmpChars] at h1
    | cons b bs =>
      cases z with
      | nil => simp [cmpChars] at h2
      | cons c cs => simp [cmpChars]
  | cons a as ih =>
    cases y with
    | nil => simp [cmpChars] at h1
    | cons b bs =>
      cases z with
      | nil => simp [cmpChars] at h2
      | cons c cs =>
        by_cases hab : a.toNat < b.toNat <;> by_cases hbc : b.toNat < c.toNat
        · have : a.toNat < c.toNat := by omega
          simp [cmpChars, this]
        · by_cases hcb : c.toNat < b.toNat
          · simp [cmpChars, hbc, hcb] at h2
          · have : a.toNat < c.toNat := by omega
            simp [cmpChars, this]
        · by_cases hba : b.toNat < a.toNat
          · simp [cmpChars, hab, hba] at h1
          · have : a.toNat < c.toNat := by omega
            simp [cmpChars, this]
        · by_cases hba : b.toNat < a.toNat
          · simp [cmpChars, hab, hba] at h1
          · by_cases hcb : c.toNat < b.toNat
            · simp [cmpChars, hbc, hcb] at h2
            · have hac : ¬ a.toNat < c.toNat := by omega
              have hca : ¬ c.toNat < a.toNat := by omega
              simp [cmpChars, hab, hba] at h1
              simp [cmpChars, hbc, hcb] at h2
              simp [cmpChars, hac, hca]
              exact ih h1 h2

theorem compareTo_eq_keys (a b : RVersion) :
    compareTo a b = keysCmpI (rvKeys a) (rvKeys b) := rfl

theorem ordToInt_neg_iff (o : Ordering) : ordToInt o < 0 ↔ o = Ordering.lt := by
  cases o <;> simp [ordToInt]

theorem ordToInt_zero_iff (o : Ordering) : ordToInt o = 0 ↔ o = Ordering.eq := by
  cases o <;> simp [ordToInt]

theorem ordToInt_swap (x y : List Char) :
    ordToInt (cmpChars y x) = -ordToInt (cmpChars x y) := by
  rw [cmpChars_swap]
  cases cmpChars x y <;> simp [ordToInt, Ordering.swap]

theorem keysCmpI_zero_iff (k l : Int × List Char × Int × List Char) :
    keysCmpI k l = 0 ↔ k = l := by
  obtain ⟨v1, h1, r1, b1⟩ := k
  obtain ⟨v2, h2, r2, b2⟩ := l
  simp only [keysCmpI, Prod.mk.injEq]
  split_ifs with hc1 hc2 hc3
  · constructor
    · intro h
      exact absurd h hc1
    · rintro ⟨he, -⟩
      exact absurd (by omega) hc1
  · constructor
    · intro h
      exact absurd h hc2
    · rintro ⟨-, he, -⟩
      rw [(cmpChars_eq_iff h1 h2).mpr he] at hc2
      exact absurd rfl hc2
  · constructor
    · intro h
      exact absurd h hc3
    · rintro ⟨-, -, he, -⟩
      exact absurd (by omega) hc3
  · rw [ordToInt_zero_iff, cmpChars_eq_iff]
    have he2 : h1 = h2 :=
      (cmpChars_eq_iff h1 h2).mp ((ordToInt_zero_iff _).mp (not_not.mp hc2))
    constructor
    · intro h
      exact ⟨by omega, he2, by omega, h⟩
    · rintro ⟨-, -, -, h⟩
      exact h

theorem keysCmpI_antisym (k l : Int × List Char × Int × List Char) :
    keysCmpI l k = -keysCmpI k l := by
  obtain ⟨v1, h1, r1, b1⟩ := k
  obtain ⟨v2, h2, r2, b2⟩ := l
  simp only [keysCmpI, ordToInt_swap h1 h2, ordToInt_swap b1 b2]
  split_ifs <;> omega

theorem keysCmpI_lt_iff (k l : Int × List Char × Int × List Char) :
    keysCmpI k l < 0 ↔ keysLt k l := by
  obtain ⟨v1, h1, r1, b1⟩ := k
  obtain ⟨v2, h2, r2, b2⟩ := l
  simp only [keysCmpI, keysLt]
  split_ifs with hc1 hc2 hc3
  · constructor
    · intro h
      exact Or.inl (by omega)
    · rintro (h | ⟨he, -⟩)
      · omega
      · exact absurd (by omega) hc1
  · rw [ordToInt_neg_iff]
    constructor
    · intro h
      exact Or.inr ⟨by omega, Or.inl h⟩
    · rintro (h | ⟨-, h | ⟨he, -⟩⟩)
      · omega
      · exact h
      · rw [(cmpChars_eq_iff h1 h2).mpr he] at hc2
        exact absurd rfl hc2
  · have he2 : h1 = h2 :=
      (cmpChars_eq_iff h1 h2).mp ((ordToInt_zero_iff _).mp (not_not.mp hc2))
    constructor
    · intro h
      exact Or.inr ⟨by omega, Or.inr ⟨he2, Or.inl (by omega)⟩⟩
    · rintro (h | ⟨-, h | ⟨-, h | ⟨he, -⟩⟩⟩)
      · omega
      · rw [he2, cmpChars_refl] at h
        cases h
      · omega
      · exact absurd (by omega) hc3
  · have he2 : h1 = h2 :=
      (cmpChars_eq_iff h1 h2).mp ((ordToInt_zero_iff _).mp (not_not.mp hc2))
    rw [ordToInt_neg_iff]
    constructor
    · intro h
      exact Or.inr ⟨by omega, Or.inr ⟨he2, Or.inr ⟨by omega, h⟩⟩⟩
    · rintro (h | ⟨-, h | ⟨-, h | ⟨-, h⟩⟩⟩)
      · omega
      · rw [he2, cmpChars_refl] at h
        cases h
      · omega
      · exact h

theorem keysLt_trans {j k l : Int × List Char × Int × List Char}
    (h1 : keysLt j k) (h2 : keysLt k l) : keysLt j l := by
  obtain ⟨v1, s1, r1, b1⟩ := j
  obtain ⟨v2, s2, r2, b2⟩ := k
  obtain ⟨v3, s3, r3, b3⟩ := l
  simp only [keysLt] at h1 h2 ⊢
  rcases h1 with h1 | ⟨e1, h1 | ⟨f1, h1 | ⟨g1, h1⟩⟩⟩ <;>
    rcases h2 with h2 | ⟨e2, h2 | ⟨f2, h2 | ⟨g2, h2⟩⟩⟩
  · exact Or.inl (by omega)
  · exact Or.inl (by omega)
  · exact Or.inl (by omega)
  · exact Or.inl (by omega)
  · exact Or.inl (by omega)
  · exact Or.inr ⟨by omega, Or.inl (cmpChars_lt_trans h1 h2)⟩
  · exact Or.inr ⟨by omega, Or.inl (f2 ▸ h1)⟩
  · exact Or.inr ⟨by omega, Or.inl (f2 ▸ h1)⟩
  · exact Or.inl (by omega)
  · exact Or.inr ⟨by omega, Or.inl (f1.symm ▸ h2)⟩
  · exact Or.inr ⟨by omega, Or.inr ⟨f1.trans f2, Or.inl (by omega)⟩⟩
  · exact Or.inr ⟨by omega, Or.inr ⟨f1.trans f2, Or.inl (by omega)⟩⟩
  · exact Or.inl (by omega)
  · exact Or.inr ⟨by omega, Or.inl (f1.symm ▸ h2)⟩
  · exact Or.inr ⟨by omega, Or.inr ⟨f1.trans f2, Or.inl (by omega)⟩⟩
  · exact Or.inr ⟨by omega, Or.inr ⟨f1.trans f2, Or.inr ⟨g1.trans g2,
      cmpChars_lt_trans h1 h2⟩⟩⟩

theorem cmp_refl (a : RVersion) : compareTo a a = 0 := by
  rw [compareTo_eq_keys]
  exact (keysCmpI_zero_iff _ _).mpr rfl

theorem cmp_zero_iff (a b : RVersion) :
    compareTo a b = 0 ↔ rvKeys a = rvKeys b := by
  rw [compareTo_eq_keys]
  exact keysCmpI_zero_iff _ _

theorem cmp_lt_iff (a b : RVersion) :
    compareTo a b < 0 ↔ keysLt (rvKeys a) (rvKeys b) := by
  rw [compareTo_eq_keys]
  exact keysCmpI_lt_iff _ _

theorem cmp_antisym (a b : RVersion) : compareTo b a = -compareTo a b := by
  rw [compareTo_eq_keys, compareTo_eq_keys]
  exact keysCmpI_antisym _ _

theorem cmp_zero_symm {a b : RVersion} (h : compareTo a b = 0) :
    compareTo b a = 0 := by
  rw [cmp_antisym, h]
  rfl

theorem cmp_congr_left {a b : RVersion} (h : compareTo a b = 0) (c : RVersion) :
    compareTo a c = compareTo b c := by
  rw [compareTo_eq_keys, compareTo_eq_keys, (cmp_zero_iff a b).mp h]

theorem cmp_congr_right {a b : RVersion} (h : compareTo a b = 0) (c : RVersion) :
    compareTo c a = compareTo c b := by
  rw [compareTo_eq_keys, compareTo_eq_keys, (cmp_zero_iff a b).mp h]

theorem cmp_zero_trans {a b c : RVersion} (h1 : compareTo a b = 0)
    (h2 : compareTo b c = 0) : compareTo a c = 0 := by
  rw [cmp_congr_left h1]
  exact h2

theorem cmp_le_trans {a b c : RVersion} (h1 : compareTo a b ≤ 0)
    (h2 : compareTo b c ≤ 0) : compareTo a c ≤ 0 := by
  rcases lt_or_eq_of_le h1 with h1' | h1'
  · rcases lt_or_eq_of_le h2 with h2' | h2'
    · have := keysLt_trans ((cmp_lt_iff a b).mp h1') ((cmp_lt_iff b c).mp h2')
      exact le_of_lt ((cmp_lt_iff a c).mpr this)
    · rw [← cmp_congr_right (cmp_zero_symm h2') a] at h1'
      exact le_of_lt h1'
  · rw [cmp_congr_left h1' c]
    exact h2

theorem cmp_total (a b : RVersion) : compareTo a b ≤ 0 ∨ compareTo b a ≤ 0 := by
  rw [cmp_antisym a b]
  omega

theorem cmp_not_le {a b : RVersion} (h : ¬ compareTo a b ≤ 0) :
    compareTo b a < 0 := by
  rw [cmp_antisym a b]
  omega

/-- `compareTo` agreement implies `operator==` (the last tie-break key is the
case-insensitive bin dir). -/

theorem cmp_zero_to_rvEq {a b : RVersion} (h : compareTo a b = 0) :
    rvEq a b = true := by
  have hk := (cmp_zero_iff a b).mp h
  have hbin : (lowerStr a.binDir).data = (lowerStr b.binDir).data := by
    have := congrArg (fun k => k.2.2.2) hk
    simpa [rvKeys] using this
  simp only [rvEq, ciCmp, hbin, cmpChars_refl, decide_eq_true_eq]
  rfl

/-- `compareTo` agreement implies equal architectures. -/

theorem cmp_zero_to_arch {a b : RVersion} (h : compareTo a b = 0) :
    a.arch = b.arch := by
  have hk := (cmp_zero_iff a b).mp h
  have hr : archRank a.arch = archRank b.arch := by
    have := congrArg (fun k => k.2.2.1) hk
    simpa [rvKeys] using this
  cases ha : a.arch <;> cases hb : b.arch <;> rw [ha, hb] at hr <;>
    first
      | rfl
      | (exfalso; simp [archRank] at hr)

theorem rvLt_iff (a b : RVersion) : rvLt a b = true ↔ compareTo a b < 0 := by
  simp [rvLt]

theorem toI32_of_small {v : Nat} (h : v < 2147483648) : toI32 v = (v : Int) := by
  simp [toI32, h]

/-- C4 (amended): compareTo is a strict weak order, total modulo operator==
(compareTo 0 forces ci-equal binDirs): asymmetric, transitive, total;
primarily by version descending for versions below 2^31; ties by homeDir
ci ascending, then architecture by enum rank descending (Unknown, X64,
X86, None), then binDir ci ascending. -/
theorem thm_C4 :
    (∀ a b : RVersion, rvLt a b = true → rvLt b a = false)
    ∧ (∀ a b c : RVersion, rvLt a b = true → rvLt b c = true → rvLt a c = true)
    ∧ (∀ a b : RVersion, rvLt a b = true ∨ rvLt b a = true ∨ compareTo a b = 0)
    ∧ (∀ a b : RVersion, compareTo a b = 0 → rvEq a b = true)
    ∧ (∀ a b : RVersion, a.version < 2147483648 → b.version < 2147483648 →
        b.version < a.version → rvLt a b = true)
    ∧ (∀ a b : RVersion, toI32 a.version = toI32 b.version →
        ciCmp a.homeDir b.homeDir < 0 → rvLt a b = true)
    ∧ (∀ a b : RVersion, toI32 a.version = toI32 b.version →
        ciCmp a.homeDir b.homeDir = 0 → archRank b.arch < archRank a.arch →
        rvLt a b = true)
    ∧ (∀ a b : RVersion, toI32 a.version = toI32 b.version →
        ciCmp a.homeDir b.homeDir = 0 → a.arch = b.arch →
        ciCmp a.binDir b.binDir < 0 → rvLt a b = true) := by
  refine ⟨?_, ?_, ?_, ?_, ?_, ?_, ?_, ?_⟩
  · intro a b h
    rw [rvLt_iff] at h
    simp only [rvLt, decide_eq_false_iff_not, not_lt]
    rw [cmp_antisym]
    omega
  · intro a b c h1 h2
    rw [rvLt_iff] at h1 h2 ⊢
    rw [cmp_lt_iff] at h1 h2 ⊢
    exact keysLt_trans h1 h2
  · intro a b
    rw [rvLt_iff, rvLt_iff, cmp_antisym a b]
    omega
  · intro a b h
    exact cmp_zero_to_rvEq h
  · intro a b ha hb h
    rw [rvLt_iff, cmp_lt_iff]
    refine Or.inl ?_
    simp only [rvKeys, toI32_of_small ha, toI32_of_small hb]
    exact_mod_cast h
  · intro a b hv hh
    rw [rvLt_iff, cmp_lt_iff]
    refine Or.inr ⟨hv, Or.inl ?_⟩
    simpa [ciCmp, ordToInt_neg_iff] using hh
  · intro a b hv hh hr
    rw [rvLt_iff, cmp_lt_iff]
    have hh' : (lowerStr a.homeDir).data = (lowerStr b.homeDir).data := by
      have := hh
      simp only [ciCmp] at this
      exact (cmpChars_eq_iff _ _).mp ((ordToInt_zero_iff _).mp this)
    exact Or.inr ⟨hv, Or.inr ⟨hh', Or.inl hr⟩⟩
  · intro a b hv hh hr hb
    rw [rvLt_iff, cmp_lt_iff]
    have hh' : (lowerStr a.homeDir).data = (lowerStr b.homeDir).data := by
      simp only [ciCmp] at hh
      exact (cmpChars_eq_iff _ _).mp ((ordToInt_zero_iff _).mp hh)
    have hb' : cmpChars (lowerStr a.binDir).data (lowerStr b.binDir).data
        = Ordering.lt := by
      simpa [ciCmp, ordToInt_neg_iff] using hb
    exact Or.inr ⟨hv, Or.inr ⟨hh', Or.inr ⟨by simp [rvKeys, hr], hb'⟩⟩⟩

/-- C4 counterexample: two valid records where the unsigned version order
and the sort order disagree (version 0xFFFFFFFF sorts after 0x00040000
because the comparator casts to signed int), and a valid Unknown-
architecture record that sorts before a valid 64-bit record with equal
version and ci-equal homeDir. -/
theorem thm_C4_cex :
    (rvIsValid envC4 (mkRVersion envC4 "C:/big/bin") = true
      ∧ rvIsValid envC4 (mkRVersion envC4 "C:/small/bin") = true
      ∧ (mkRVersion envC4 "C:/small/bin").version
          < (mkRVersion envC4 "C:/big/bin").version
      ∧ rvLt (mkRVersion envC4 "C:/big/bin") (mkRVersion envC4 "C:/small/bin")
          = false
      ∧ rvLt (mkRVersion envC4 "C:/small/bin") (mkRVersion envC4 "C:/big/bin")
          = true)
    ∧ (rvIsValid envC4 (mkRVersion envC4 "C:/x/bin") = true
      ∧ rvIsValid envC4 (mkRVersion envC4 "C:/x/bin/x64") = true
      ∧ (mkRVersion envC4 "C:/x/bin").arch = ArchUnknown
      ∧ (mkRVersion envC4 "C:/x/bin/x64").arch = ArchX64
      ∧ (mkRVersion envC4 "C:/x/bin").version
          = (mkRVersion envC4 "C:/x/bin/x64").version
      ∧ ciCmp (mkRVersion envC4 "C:/x/bin").homeDir
          (mkRVersion envC4 "C:/x/bin/x64").homeDir = 0
      ∧ rvLt (mkRVersion envC4 "C:/x/bin") (mkRVersion envC4 "C:/x/bin/x64")
          = true) :=
  ⟨⟨by decide, by decide, by decide, by decide, by decide⟩,
   ⟨by decide, by decide, by decide, by decide, by decide, by decide, by decide⟩⟩

theorem thm_C4_witness :
    ((⟨"C:/r2/bin", "C:/r2", 0x50000, ArchX64⟩ : RVersion).version < 2147483648
      ∧ (⟨"C:/r1/bin", "C:/r1", 0x40000, ArchX64⟩ : RVersion).version < 2147483648
      ∧ (0x40000 : Nat) < 0x50000)
    ∧ rvLt ⟨"C:/r2/bin", "C:/r2", 0x50000, ArchX64⟩
        ⟨"C:/r1/bin", "C:/r1", 0x40000, ArchX64⟩ = true :=
  ⟨⟨by decide, by decide, by decide⟩,
    thm_C4.2.2.2.2.1 ⟨"C:/r2/bin", "C:/r2", 0x50000, ArchX64⟩
      ⟨"C:/r1/bin", "C:/r1", 0x40000, ArchX64⟩
      (by decide) (by decide) (by decide)⟩

theorem dedupRV_cons2 (a b : RVersion) (rest : List RVersion) :
    dedupRV (a :: b :: rest)
      = if rvEq b a then dedupRV (a :: rest) else a :: dedupRV (b :: rest) := by
  by_cases h : rvEq b a = true <;> simp [dedupRV, dedupFrom, h]

theorem dedupERV_cons2 (a b : RVersion) (rest : List RVersion) :
    dedupERV (a :: b :: rest)
      = if eqvB b a then dedupERV (a :: rest) else a :: dedupERV (b :: rest) := by
  by_cases h : eqvB b a = true <;> simp [dedupERV, dedupFromE, h]

theorem eqvB_true_iff (a b : RVersion) : eqvB a b = true ↔ compareTo a b = 0 := by
  simp [eqvB]

theorem insertRV_perm (a : RVersion) (L : List RVersion) :
    (insertRV a L).Perm (a :: L) := by
  induction L with
  | nil => exact List.Perm.refl _
  | cons b l ih =>
    by_cases h : compareTo a b ≤ 0
    · simp [insertRV, h]
    · simp only [insertRV, if_neg h]
      exact (ih.cons b).trans (List.Perm.swap a b l)

theorem sortRV_perm (L : List RVersion) : (sortRV L).Perm L := by
  induction L with
  | nil => exact List.Perm.refl _
  | cons a l ih => exact (insertRV_perm a (sortRV l)).trans (ih.cons a)

theorem insertRV_mem {x a : RVersion} {L : List RVersion}
    (h : x ∈ insertRV a L) : x = a ∨ x ∈ L := by
  have := (insertRV_perm a L).mem_iff.mp h
  simpa using this

theorem insertRV_sorted (a : RVersion) {L : List RVersion} (h : rvSorted L) :
    rvSorted (insertRV a L) := by
  induction L with
  | nil => simp [insertRV, rvSorted]
  | cons b l ih =>
    rcases h with _ | ⟨hbl, hl⟩
    by_cases hab : compareTo a b ≤ 0
    · simp only [insertRV, if_pos hab]
      refine List.Pairwise.cons ?_ (List.Pairwise.cons hbl hl)
      intro x hx
      rcases List.mem_cons.mp hx with rfl | hx
      · exact hab
      · exact cmp_le_trans hab (hbl x hx)
    · simp only [insertRV, if_neg hab]
      refine List.Pairwise.cons ?_ (ih hl)
      intro x hx
      rcases insertRV_mem hx with rfl | hx
      · exact le_of_lt (cmp_not_le hab)
      · exact hbl x hx

theorem sortRV_sorted (L : List RVersion) : rvSorted (sortRV L) := by
  induction L with
  | nil => simp [sortRV, rvSorted]
  | cons a l ih => exact insertRV_sorted a ih

theorem rvSorted_filter (p : RVersion → Bool) {L : List RVersion}
    (h : rvSorted L) : rvSorted (L.filter p) :=
  h.sublist (List.filter_sublist L)

theorem filterC_insertRV (k a : RVersion) (L : List RVersion) :
    filterC k (insertRV a L) = filterC k (a :: L) := by
  induction L with
  | nil => rfl
  | cons b l ih =>
    by_cases hab : compareTo a b ≤ 0
    · simp [insertRV, hab]
    · simp only [insertRV, if_neg hab]
      have hnot : ¬ (eqvB a k = true ∧ eqvB b k = true) := by
        rintro ⟨h1, h2⟩
        exact hab (le_of_eq (cmp_zero_trans ((eqvB_true_iff a k).mp h1)
          (cmp_zero_symm ((eqvB_true_iff b k).mp h2))))
      by_cases ha : eqvB a k = true <;> by_cases hb : eqvB b k = true
      · exact absurd ⟨ha, hb⟩ hnot
      · simp [filterC, List.filter_cons, ha, hb] at ih ⊢
        exact ih
      · simp [filterC, List.filter_cons, ha, hb] at ih ⊢
        exact ih
      · simp [filterC, List.filter_cons, ha, hb] at ih ⊢
        exact ih

theorem sortRV_stable (k : RVersion) (L : List RVersion) :
    filterC k (sortRV L) = filterC k L := by
  induction L with
  | nil => rfl
  | cons a l ih =>
    rw [sortRV, filterC_insertRV]
    by_cases ha : eqvB a k = true <;>
      simp [filterC, List.filter_cons, ha, ih] at ih ⊢ <;>
      exact ih

theorem mem_cons_skip {x a b : RVersion} {rest : List RVersion}
    (h : x ∈ a :: rest) : x ∈ a :: b :: rest := by
  rcases List.mem_cons.mp h with rfl | h
  · exact List.mem_cons_self _ _
  · exact List.mem_cons_of_mem _ (List.mem_cons_of_mem _ h)

theorem mem_cons_tail2 {x a b : RVersion} {rest : List RVersion}
    (h : x ∈ b :: rest) : x ∈ a :: b :: rest :=
  List.mem_cons_of_mem _ h

theorem dedupRV_eq_dedupERV {L : List RVersion}
    (H : ∀ x ∈ L, ∀ y ∈ L, rvEq x y = true → compareTo x y = 0) :
    dedupRV L = dedupERV L := by
  suffices key : ∀ n (L : List RVersion), L.length ≤ n →
      (∀ x ∈ L, ∀ y ∈ L, rvEq x y = true → compareTo x y = 0) →
      dedupRV L = dedupERV L by
    exact key L.length L le_rfl H
  intro n
  induction n with
  | zero =>
    intro L hL _
    rw [Nat.le_zero, List.length_eq_zero] at hL
    subst hL
    simp [dedupRV, dedupERV, dedupFrom, dedupFromE]
  | succ n ih =>
    intro L hL H
    rcases L with _ | ⟨a, _ | ⟨b, rest⟩⟩
    · simp [dedupRV, dedupERV, dedupFrom, dedupFromE]
    · simp [dedupRV, dedupERV, dedupFrom, dedupFromE]
    · simp only [List.length_cons] at hL
      have hba : rvEq b a = eqvB b a := by
        rcases hrv : rvEq b a with _ | _
        · rcases hev : eqvB b a with _ | _
          · rfl
          · exfalso
            have := cmp_zero_to_rvEq ((eqvB_true_iff b a).mp hev)
            rw [hrv] at this
            cases this
        · have := H b (by simp) a (by simp) hrv
          rw [(eqvB_true_iff b a).mpr this]
      rw [dedupRV_cons2, dedupERV_cons2, hba]
      by_cases hev : eqvB b a = true
      · rw [if_pos hev, if_pos hev]
        exact ih (a :: rest) (by simp; omega)
          (fun x hx y hy hxy => H x (mem_cons_skip hx) y (mem_cons_skip hy) hxy)
      · rw [if_neg hev, if_neg hev]
        congr 1
        exact ih (b :: rest) (by simp; omega)
          (fun x hx y hy hxy => H x (mem_cons_tail2 hx) y (mem_cons_tail2 hy) hxy)

theorem dedupERV_sublist (L : List RVersion) : (dedupERV L).Sublist L := by
  suffices key : ∀ n (L : List RVersion), L.length ≤ n →
      (dedupERV L).Sublist L by
    exact key L.length L le_rfl
  intro n
  induction n with
  | zero =>
    intro L hL
    rw [Nat.le_zero, List.length_eq_zero] at hL
    subst hL
    simp only [dedupERV, dedupFromE]
    exact List.Sublist.refl _
  | succ n ih =>
    intro L hL
    rcases L with _ | ⟨a, _ | ⟨b, rest⟩⟩
    · simp only [dedupERV, dedupFromE]
      exact List.Sublist.refl _
    · simp only [dedupERV, dedupFromE]
      exact List.Sublist.refl _
    · simp only [List.length_cons] at hL
      rw [dedupERV_cons2]
      by_cases hev : eqvB b a = true
      · rw [if_pos hev]
        have h1 := ih (a :: rest) (by simp; omega)
        exact h1.trans (List.Sublist.cons₂ a (List.sublist_cons_self b rest))
      · rw [if_neg hev]
        exact List.Sublist.cons₂ a (ih (b :: rest) (by simp; omega))

theorem dedupERV_run (a : RVersion) {t : List RVersion}
    (h : rvSorted (a :: t)) :
    dedupERV (a :: t) = a :: dedupERV (t.filter (fun x => ¬ eqvB x a)) := by
  suffices key : ∀ n (t : List RVersion), t.length ≤ n → rvSorted (a :: t) →
      dedupERV (a :: t) = a :: dedupERV (t.filter (fun x => ¬ eqvB x a)) by
    exact key t.length t le_rfl h
  intro n
  induction n with
  | zero =>
    intro t hL _
    rw [Nat.le_zero, List.length_eq_zero] at hL
    subst hL
    simp [dedupERV, dedupFromE]
  | succ n ih =>
    intro t hL h
    rcases t with _ | ⟨b, r⟩
    · simp [dedupERV, dedupFromE]
    · simp only [List.length_cons] at hL
      rcases h with _ | ⟨hal, hbl⟩
      by_cases hev : eqvB b a = true
      · rw [dedupERV_cons2, if_pos hev]
        have hs : rvSorted (a :: r) := by
          refine List.Pairwise.cons ?_ ?_
          · intro x hx
            exact hal x (by simp [hx])
          · rcases hbl with _ | ⟨-, h⟩
            exact h
        rw [ih r (by omega) hs]
        simp [List.filter_cons, hev]
      · rw [dedupERV_cons2, if_neg hev]
        have hfilt : (b :: r).filter (fun x => ¬ eqvB x a) =
            b :: r.filter (fun x => ¬ eqvB x a) := by
          simp [List.filter_cons, hev]
        rw [hfilt]
        congr 1
        have hr : r.filter (fun x => ¬ eqvB x a) = r := by
          rw [List.filter_eq_self]
          intro x hx
          simp only [Bool.not_eq_true', Bool.not_eq_true, decide_eq_true_eq]
          rcases hxa : eqvB x a with _ | _
          · simp
          · exfalso
            have hax : compareTo x a = 0 := (eqvB_true_iff x a).mp hxa
            rcases hbl with _ | ⟨hbr, -⟩
            have h2 : compareTo b x ≤ 0 := hbr x hx
            have h3 : compareTo b a ≤ 0 := cmp_le_trans h2 hax.le
            have h4 : compareTo b a = 0 := le_antisymm h3 (by
              have h1 : compareTo a b ≤ 0 := hal b (by simp)
              rw [cmp_antisym]
              omega)
            exact hev ((eqvB_true_iff b a).mpr h4)
        rw [hr]

theorem filterC_cons (k a : RVersion) (l : List RVersion) :
    filterC k (a :: l) =
      if eqvB a k = true then a :: filterC k l else filterC k l := by
  simp [filterC, List.filter_cons]

theorem dedupERV_filterC (k : RVersion) {S : List RVersion} (h : rvSorted S) :
    filterC k (dedupERV S) = (filterC k S).take 1 := by
  suffices key : ∀ n (S : List RVersion), S.length ≤ n → rvSorted S →
      filterC k (dedupERV S) = (filterC k S).take 1 by
    exact key S.length S le_rfl h
  intro n
  induction n with
  | zero =>
    intro S hL _
    rw [Nat.le_zero, List.length_eq_zero] at hL
    subst hL
    simp [dedupERV, dedupFromE, filterC]
  | succ n ih =>
    intro S hL h
    rcases S with _ | ⟨a, t⟩
    · simp [dedupERV, dedupFromE, filterC]
    · simp only [List.length_cons] at hL
      rw [dedupERV_run a h]
      rcases h with _ | ⟨hal, htl⟩
      by_cases hak : eqvB a k = true
      · rw [filterC_cons, if_pos hak, filterC_cons, if_pos hak,
          List.take_succ_cons, List.take_zero]
        have hnone : filterC k (dedupERV (t.filter (fun x => ¬ eqvB x a))) = [] := by
          have hsub : (filterC k (dedupERV (t.filter (fun x => ¬ eqvB x a)))).Sublist
              (t.filter (fun x => ¬ eqvB x a)) :=
            (List.filter_sublist _).trans (dedupERV_sublist _)
          rw [List.eq_nil_iff_forall_not_mem]
          intro x hx
          have hx2 : eqvB x k = true := (List.mem_filter.mp hx).2
          have hx3 : x ∈ t.filter (fun x => ¬ eqvB x a) := hsub.mem hx
          have hx4 : ¬ eqvB x a = true := by
            have := (List.mem_filter.mp hx3).2
            simpa using this
          apply hx4
          rw [eqvB_true_iff]
          exact cmp_zero_trans ((eqvB_true_iff x k).mp hx2)
            (cmp_zero_symm ((eqvB_true_iff a k).mp hak))
        rw [hnone]
      · rw [filterC_cons, if_neg hak, filterC_cons, if_neg hak]
        have hcomm : filterC k (t.filter (fun x => ¬ eqvB x a)) = filterC k t := by
          simp only [filterC]
          rw [List.filter_filter]
          apply List.filter_congr
          intro x hx
          rcases hxk : eqvB x k with _ | _
          · simp [hxk]
          · rcases hxa : eqvB x a with _ | _
            · simp [hxk, hxa]
            · exfalso
              apply hak
              rw [eqvB_true_iff]
              exact cmp_zero_trans (cmp_zero_symm ((eqvB_true_iff x a).mp hxa))
                ((eqvB_true_iff x k).mp hxk)
        have hst : rvSorted (t.filter (fun x => ¬ eqvB x a)) :=
          rvSorted_filter _ htl
        have hlen : (t.filter (fun x => ¬ eqvB x a)).length ≤ n := by
          have := List.length_filter_le (fun x => ¬ eqvB x a) t
          omega
        rw [ih (t.filter (fun x => ¬ eqvB x a)) hlen hst, hcomm]

theorem eqvB_symm (a b : RVersion) : eqvB a b = eqvB b a := by
  rcases h : eqvB b a with _ | _
  · rcases h2 : eqvB a b with _ | _
    · rfl
    · rw [← h]
      rw [(eqvB_true_iff b a).mpr (cmp_zero_symm ((eqvB_true_iff a b).mp h2))]
  · rw [(eqvB_true_iff a b).mpr (cmp_zero_symm ((eqvB_true_iff b a).mp h))]

theorem filterC_run_nil (k a : RVersion) (t : List RVersion)
    (hak : eqvB a k = true) :
    filterC k (t.filter (fun x => ¬ eqvB x a)) = [] := by
  rw [List.eq_nil_iff_forall_not_mem]
  intro x hx
  have hx1 := List.mem_filter.mp hx
  have hx2 := List.mem_filter.mp hx1.1
  have hxa : ¬ eqvB x a = true := by simpa using hx2.2
  apply hxa
  rw [eqvB_true_iff]
  exact cmp_zero_trans ((eqvB_true_iff x k).mp hx1.2)
    (cmp_zero_symm ((eqvB_true_iff a k).mp hak))

theorem filterC_drop_run (k a : RVersion) (t : List RVersion)
    (hak : ¬ eqvB a k = true) :
    filterC k (t.filter (fun x => ¬ eqvB x a)) = filterC k t := by
  simp only [filterC]
  rw [List.filter_filter]
  apply List.filter_congr
  intro x hx
  rcases hxk : eqvB x k with _ | _
  · simp [hxk]
  · rcases hxa : eqvB x a with _ | _
    · simp [hxk, hxa]
    · exfalso
      apply hak
      rw [eqvB_true_iff]
      exact cmp_zero_trans (cmp_zero_symm ((eqvB_true_iff x a).mp hxa))
        ((eqvB_true_iff x k).mp hxk)

theorem dedupERV_pairwise {S : List RVersion} (h : rvSorted S) :
    (dedupERV S).Pairwise (fun x y => ¬ compareTo x y = 0) := by
  suffices key : ∀ n (S : List RVersion), S.length ≤ n → rvSorted S →
      (dedupERV S).Pairwise (fun x y => ¬ compareTo x y = 0) by
    exact key S.length S le_rfl h
  intro n
  induction n with
  | zero =>
    intro S hL _
    rw [Nat.le_zero, List.length_eq_zero] at hL
    subst hL
    simp [dedupERV, dedupFromE]
  | succ n ih =>
    intro S hL h
    rcases S with _ | ⟨a, t⟩
    · simp [dedupERV, dedupFromE]
    · simp only [List.length_cons] at hL
      rw [dedupERV_run a h]
      rcases h with _ | ⟨hal, htl⟩
      have hst : rvSorted (t.filter (fun x => ¬ eqvB x a)) :=
        rvSorted_filter _ htl
      have hlen : (t.filter (fun x => ¬ eqvB x a)).length ≤ n := by
        have := List.length_filter_le (fun x => ¬ eqvB x a) t
        omega
      refine List.Pairwise.cons ?_ (ih _ hlen hst)
      intro y hy
      have hy1 : y ∈ t.filter (fun x => ¬ eqvB x a) := (dedupERV_sublist _).mem hy
      have hy2 : ¬ eqvB y a = true := by
        simpa using (List.mem_filter.mp hy1).2
      intro hay
      exact hy2 ((eqvB_true_iff y a).mpr (cmp_zero_symm hay))

theorem dedupERV_filter_comm (p : RVersion → Bool)
    (hp : ∀ x y, compareTo x y = 0 → p x = p y) {S : List RVersion}
    (h : rvSorted S) :
    (dedupERV S).filter p = dedupERV (S.filter p) := by
  suffices key : ∀ n (S : List RVersion), S.length ≤ n → rvSorted S →
      (dedupERV S).filter p = dedupERV (S.filter p) by
    exact key S.length S le_rfl h
  intro n
  induction n with
  | zero =>
    intro S hL _
    rw [Nat.le_zero, List.length_eq_zero] at hL
    subst hL
    simp [dedupERV, dedupFromE]
  | succ n ih =>
    intro S hL h
    rcases S with _ | ⟨a, t⟩
    · simp [dedupERV, dedupFromE]
    · simp only [List.length_cons] at hL
      rw [dedupERV_run a h]
      rcases h with _ | ⟨hal, htl⟩
      have hst : rvSorted (t.filter (fun x => ¬ eqvB x a)) :=
        rvSorted_filter _ htl
      have hlen : (t.filter (fun x => ¬ eqvB x a)).length ≤ n := by
        have := List.length_filter_le (fun x => ¬ eqvB x a) t
        omega
      rcases hpa : p a with _ | _
      · rw [List.filter_cons, hpa]
        simp only [Bool.false_eq_true, ite_false]
        rw [ih _ hlen hst]
        rw [List.filter_cons, hpa]
        simp only [Bool.false_eq_true, ite_false]
        congr 1
        rw [List.filter_filter]
        apply List.filter_congr
        intro x hx
        rcases hxa : eqvB x a with _ | _
        · simp [hxa]
        · have hpx : p x = false := by
            rw [hp x a ((eqvB_true_iff x a).mp hxa), hpa]
          simp [hxa, hpx]
      · rw [List.filter_cons, hpa]
        simp only [ite_true]
        rw [ih _ hlen hst]
        rw [List.filter_cons, hpa]
        simp only [ite_true]
        have hs2 : rvSorted (a :: t.filter p) := by
          refine List.Pairwise.cons ?_ (rvSorted_filter _ htl)
          intro x hx
          exact hal x (List.mem_of_mem_filter hx)
        rw [dedupERV_run a hs2]
        congr 1
        congr 1
        rw [List.filter_filter, List.filter_filter]
        apply List.filter_congr
        intro x hx
        rcases hxa : eqvB x a with _ | _ <;> rcases hpx : p x with _ | _ <;>
          simp [hxa, hpx]

theorem filterC_self_cons (a : RVersion) (t : List RVersion) :
    filterC a (a :: t) = a :: filterC a t := by
  rw [filterC_cons, if_pos ((eqvB_true_iff a a).mpr (cmp_refl a))]

theorem dedupERV_ext {S T : List RVersion} (hS : rvSorted S) (hT : rvSorted T)
    (hk : ∀ k, (filterC k S).take 1 = (filterC k T).take 1) :
    dedupERV S = dedupERV T := by
  suffices key : ∀ n (S T : List RVersion), S.length ≤ n → rvSorted S →
      rvSorted T → (∀ k, (filterC k S).take 1 = (filterC k T).take 1) →
      dedupERV S = dedupERV T by
    exact key S.length S T le_rfl hS hT hk
  intro n
  induction n with
  | zero =>
    intro S T hL _ _ hk
    rw [Nat.le_zero, List.length_eq_zero] at hL
    subst hL
    rcases T with _ | ⟨a, t⟩
    · rfl
    · exfalso
      have := hk a
      rw [filterC_self_cons] at this
      simp [filterC] at this
  | succ n ih =>
    intro S T hL hS hT hk
    rcases S with _ | ⟨a, t⟩
    · rcases T with _ | ⟨a, t⟩
      · rfl
      · exfalso
        have := hk a
        rw [filterC_self_cons] at this
        simp [filterC] at this
    · rcases T with _ | ⟨a', t'⟩
      · exfalso
        have := hk a
        rw [filterC_self_cons] at this
        simp [filterC] at this
      · simp only [List.length_cons] at hL
        -- the heads are equal
        have ha : (filterC a (a' :: t')).take 1 = [a] := by
          rw [← hk a, filterC_self_cons, List.take_succ_cons, List.take_zero]
        have ha' : (filterC a' (a :: t)).take 1 = [a'] := by
          rw [hk a', filterC_self_cons, List.take_succ_cons, List.take_zero]
        have heads : a' = a := by
          by_cases hev : eqvB a' a = true
          · rw [filterC_cons, if_pos hev, List.take_succ_cons, List.take_zero]
              at ha
            exact (List.cons.injEq _ _ _ _).mp ha |>.1
          · have hev2 : ¬ eqvB a a' = true := by
              rw [eqvB_symm]
              exact hev
            rw [filterC_cons, if_neg hev] at ha
            rw [filterC_cons, if_neg hev2] at ha'
            -- a occurs in t', a' occurs in t: contradiction with sortedness
            have hat' : a ∈ t' := by
              have hmem : a ∈ filterC a t' := by
                rcases hft : filterC a t' with _ | ⟨x, r⟩
                · rw [hft] at ha
                  simp at ha
                · rw [hft] at ha
                  simp only [List.take_succ_cons, List.take_zero] at ha
                  have hx : x = a := (List.cons.injEq _ _ _ _).mp ha |>.1
                  exact List.mem_cons.mpr (Or.inl hx.symm)
              exact List.mem_of_mem_filter hmem
            have hat : a' ∈ t := by
              have hmem : a' ∈ filterC a' t := by
                rcases hft : filterC a' t with _ | ⟨x, r⟩
                · rw [hft] at ha'
                  simp at ha'
                · rw [hft] at ha'
                  simp only [List.take_succ_cons, List.take_zero] at ha'
                  have hx : x = a' := (List.cons.injEq _ _ _ _).mp ha' |>.1
                  exact List.mem_cons.mpr (Or.inl hx.symm)
              exact List.mem_of_mem_filter hmem
            exfalso
            rcases hS with _ | ⟨hal, -⟩
            rcases hT with _ | ⟨hal', -⟩
            have h1 : compareTo a a' ≤ 0 := hal a' hat
            have h2 : compareTo a' a ≤ 0 := hal' a hat'
            have h3 : compareTo a' a = 0 := by
              rw [cmp_antisym]
              rw [cmp_antisym] at h2
              omega
            exact hev ((eqvB_true_iff a' a).mpr h3)
        subst heads
        rw [dedupERV_run a' hS, dedupERV_run a' hT]
        congr 1
        rcases hS with _ | ⟨hal, htl⟩
        rcases hT with _ | ⟨hal', htl'⟩
        refine ih _ _ ?_ (rvSorted_filter _ htl) (rvSorted_filter _ htl') ?_
        · have := List.length_filter_le (fun x => ¬ eqvB x a') t
          omega
        · intro k
          by_cases hak : eqvB a' k = true
          · rw [filterC_run_nil k a' t hak, filterC_run_nil k a' t' hak]
          · rw [filterC_drop_run k a' t hak, filterC_drop_run k a' t' hak]
            have h1 := hk k
            rw [filterC_cons, if_neg hak, filterC_cons, if_neg hak] at h1
            exact h1

theorem allRVersions_spec (env : Env) (seed : List RVersion) :
    allRVersions env seed =
      (dedupRV (sortRV (allValid env seed))).filter
        (fun v => v.arch = ArchX64) := by
  simp [allRVersions, allValid, allEnum, List.append_assoc]

theorem dedupRV_sublist (L : List RVersion) : (dedupRV L).Sublist L := by
  suffices key : ∀ n (L : List RVersion), L.length ≤ n →
      (dedupRV L).Sublist L by
    exact key L.length L le_rfl
  intro n
  induction n with
  | zero =>
    intro L hL
    rw [Nat.le_zero, List.length_eq_zero] at hL
    subst hL
    simp only [dedupRV, dedupFrom]
    exact List.Sublist.refl _
  | succ n ih =>
    intro L hL
    rcases L with _ | ⟨a, _ | ⟨b, rest⟩⟩
    · simp only [dedupRV, dedupFrom]
      exact List.Sublist.refl _
    · simp only [dedupRV, dedupFrom]
      exact List.Sublist.refl _
    · simp only [List.length_cons] at hL
      rw [dedupRV_cons2]
      by_cases hev : rvEq b a = true
      · rw [if_pos hev]
        have h1 := ih (a :: rest) (by simp; omega)
        exact h1.trans (List.Sublist.cons₂ a (List.sublist_cons_self b rest))
      · rw [if_neg hev]
        exact List.Sublist.cons₂ a (ih (b :: rest) (by simp; omega))

theorem filterC_filter_inv (p : RVersion → Bool)
    (hp : ∀ x y, compareTo x y = 0 → p x = p y) (k : RVersion)
    (L : List RVersion) :
    filterC k (L.filter p) = if p k = true then filterC k L else [] := by
  simp only [filterC]
  rw [List.filter_filter]
  by_cases hpk : p k = true
  · rw [if_pos hpk]
    apply List.filter_congr
    intro x hx
    rcases hxk : eqvB x k with _ | _
    · simp [hxk]
    · have : p x = true := by
        rw [hp x k ((eqvB_true_iff x k).mp hxk)]
        exact hpk
      simp [hxk, this]
  · rw [if_neg hpk]
    rw [List.eq_nil_iff_forall_not_mem]
    intro x hx
    have h1 := (List.mem_filter.mp hx).2
    rw [Bool.and_eq_true] at h1
    apply hpk
    rw [← hp x k ((eqvB_true_iff x k).mp h1.1)]
    exact h1.2

theorem filterC_append (k : RVersion) (L M : List RVersion) :
    filterC k (L ++ M) = filterC k L ++ filterC k M := by
  simp [filterC, List.filter_append]

/-- C8 (amended): provided record equality (ci binDir) refines comparator
equality on the valid candidates, allRVersions is idempotent over a fixed
environment, and no two entries of its output are record-equal (each
equivalence class collapses to its first element after the stable sort). -/
theorem thm_C8 (env : Env) (seed : List RVersion)
    (H : ∀ x ∈ allValid env seed, ∀ y ∈ allValid env seed,
      rvEq x y = true → compareTo x y = 0) :
    allRVersions env (allRVersions env seed) = allRVersions env seed
    ∧ (allRVersions env seed).Pairwise (fun x y => rvEq x y = false) := by
  have harchinv : ∀ x y : RVersion, compareTo x y = 0 →
      (decide (x.arch = ArchX64)) = (decide (y.arch = ArchX64)) := by
    intro x y h
    rw [cmp_zero_to_arch h]
  have hmemV1 : ∀ x ∈ sortRV (allValid env seed), x ∈ allValid env seed :=
    fun x hx => (sortRV_perm _).mem_iff.mp hx
  have htrans : dedupRV (sortRV (allValid env seed))
      = dedupERV (sortRV (allValid env seed)) :=
    dedupRV_eq_dedupERV (fun x hx y hy => H x (hmemV1 x hx) y (hmemV1 y hy))
  have hA1mem : ∀ x ∈ allRVersions env seed, x ∈ allValid env seed := by
    intro x hx
    rw [allRVersions_spec] at hx
    have h1 := (List.mem_filter.mp hx).1
    rw [htrans] at h1
    exact hmemV1 x ((dedupERV_sublist _).mem h1)
  have hA1valid : ∀ x ∈ allRVersions env seed, rvIsValid env x = true := by
    intro x hx
    exact (List.mem_filter.mp (hA1mem x hx)).2
  have hV2 : allValid env (allRVersions env seed) =
      allRVersions env seed
        ++ (allEnum env).filter (fun v => rvIsValid env v) := by
    rw [allValid, List.filter_append]
    congr 1
    exact List.filter_eq_self.mpr hA1valid
  have hV2mem : ∀ x ∈ allValid env (allRVersions env seed),
      x ∈ allValid env seed := by
    intro x hx
    rw [hV2] at hx
    rcases List.mem_append.mp hx with h | h
    · exact hA1mem x h
    · rw [allValid, List.filter_append]
      exact List.mem_append_right _ h
  have hmemS2 : ∀ x ∈ sortRV (allValid env (allRVersions env seed)),
      x ∈ allValid env seed :=
    fun x hx => hV2mem x ((sortRV_perm _).mem_iff.mp hx)
  have htrans2 : dedupRV (sortRV (allValid env (allRVersions env seed)))
      = dedupERV (sortRV (allValid env (allRVersions env seed))) :=
    dedupRV_eq_dedupERV (fun x hx y hy => H x (hmemS2 x hx) y (hmemS2 y hy))
  have hkey : ∀ k : RVersion, k.arch = ArchX64 →
      filterC k (allRVersions env seed)
        = (filterC k (allValid env seed)).take 1 := by
    intro k hk
    rw [allRVersions_spec, htrans]
    rw [filterC_filter_inv _ harchinv k _]
    rw [if_pos (by simp [hk])]
    rw [dedupERV_filterC k (sortRV_sorted _)]
    rw [sortRV_stable]
  have hext : ∀ k : RVersion,
      (filterC k ((sortRV (allValid env (allRVersions env seed))).filter
        (fun v => v.arch = ArchX64))).take 1
      = (filterC k ((sortRV (allValid env seed)).filter
        (fun v => v.arch = ArchX64))).take 1 := by
    intro k
    rw [filterC_filter_inv _ harchinv, filterC_filter_inv _ harchinv]
    by_cases hk : k.arch = ArchX64
    · rw [if_pos (by simp [hk]), if_pos (by simp [hk])]
      rw [sortRV_stable, sortRV_stable]
      rw [hV2, filterC_append, hkey k hk]
      rcases hf : filterC k (allValid env seed) with _ | ⟨h, tl⟩
      · have h1 : filterC k (allValid env seed)
            = filterC k (seed.filter (fun v => rvIsValid env v))
              ++ filterC k ((allEnum env).filter (fun v => rvIsValid env v)) := by
          rw [allValid, List.filter_append, filterC_append]
        rw [hf] at h1
        rw [(List.append_eq_nil.mp h1.symm).2]
        simp
      · simp
    · rw [if_neg (by simp [hk]), if_neg (by simp [hk])]
  constructor
  · rw [allRVersions_spec env (allRVersions env seed), htrans2]
    rw [dedupERV_filter_comm _ harchinv (sortRV_sorted _)]
    rw [dedupERV_ext (rvSorted_filter _ (sortRV_sorted _))
      (rvSorted_filter _ (sortRV_sorted _)) hext]
    rw [← dedupERV_filter_comm _ harchinv (sortRV_sorted _)]
    rw [← htrans, ← allRVersions_spec]
  · have hP : (allRVersions env seed).Pairwise
        (fun x y => ¬ compareTo x y = 0) := by
      rw [allRVersions_spec, htrans]
      exact (dedupERV_pairwise (sortRV_sorted _)).sublist (List.filter_sublist _)
    refine hP.imp_of_mem ?_
    intro x y hx hy hne
    rcases h : rvEq x y with _ | _
    · rfl
    · exact absurd (H x (hA1mem x hx) y (hA1mem y hy) h) hne

/-- C8 counterexample: an environment and seed of valid records where the
output of allRVersions contains two entries with ci-equal binDirs
(C:/x/bin/BIN and C:/x/bin/bin - record-equal but comparator-distinct
because their derived homeDirs differ), and where running allRVersions on
its own output yields a different list. -/
theorem thm_C8_cex :
    (allRVersions envC8 seedC8).map (fun v => v.binDir)
        = ["C:/x/bin/BIN", "C:/x/bin/bin"]
    ∧ rvEq (mkRVersion envC8 "C:/x/bin/BIN") (mkRVersion envC8 "C:/x/bin/bin")
        = true
    ∧ (∀ v ∈ seedC8, rvIsValid envC8 v = true)
    ∧ allRVersions envC8 (allRVersions envC8 seedC8) ≠ allRVersions envC8 seedC8 :=
  ⟨by decide, by decide, by decide, by decide⟩

theorem thm_C8_witness :
    (∀ x ∈ allValid envC8w [], ∀ y ∈ allValid envC8w [],
      rvEq x y = true → compareTo x y = 0)
    ∧ allRVersions envC8w (allRVersions envC8w []) = allRVersions envC8w []
    ∧ (allRVersions envC8w []).Pairwise (fun x y => rvEq x y = false) := by
  have hH : ∀ x ∈ allValid envC8w [], ∀ y ∈ allValid envC8w [],
      rvEq x y = true → compareTo x y = 0 := by decide
  have h := thm_C8 envC8w [] hH
  exact ⟨hH, h.1, h.2⟩
